import Mathlib

/-!
# Leader election over a coordination service (`electing_master`)

A shallow embedding of `election_manager.go`:

* the connection-target parsing at the head of `GoElectingMaster`;
* `isConnected`, `initConnection`, `electMaster`, `WatchMaster` as state-passing
  functions over an abstract coordination service (`ZKOps`);
* a small-step version of `electMaster` for interleaving two processes;
* a fake coordination service (a flat table of nodes).

Go strings are byte sequences; they are embedded as lists of bytes.
-/

namespace ElectingMaster

/-! ## Strings -/

/-- One byte of a Go string. -/
abbrev Byte := Fin 256

/-- A Go `string`: an immutable sequence of bytes. -/
abbrev GoString := List Byte

/-- The bytes of an ASCII literal (used to write constants and examples). -/
def str (s : String) : GoString := s.toList.map (fun c => Fin.ofNat c.toNat)

/-- The byte `'/'`. -/
def slash : Byte := 47

/-- The byte `','`. -/
def comma : Byte := 44

/-- Go `strings.Index(s, sep)` for a one-byte separator: the position of the first
occurrence, `none` standing for Go's `-1`. -/
def Index : GoString → Byte → Option Nat
  | [], _ => none
  | c :: cs, sep => if c = sep then some 0 else (Index cs sep).map (· + 1)

/-- Go `strings.Contains(s, sep)`: `Index(s, sep) >= 0`. -/
def Contains (s : GoString) (sep : Byte) : Bool := (Index s sep).isSome

/-- Go `strings.Count(s, sep)` for a one-byte separator. -/
def Count (s : GoString) (sep : Byte) : Nat := s.count sep

/-- The loop of Go `strings.genSplit`: at most `n` times, cut `s` at the first separator
and go on with what follows it; the rest of `s` is the last piece. -/
def genSplit (sep : Byte) : Nat → GoString → List GoString
  | 0, s => [s]
  | n + 1, s =>
    match Index s sep with
    | none => [s]
    | some m => s.take m :: genSplit sep n (s.drop (m + 1))

/-- Go `strings.Split(s, sep)` for a one-byte separator: `genSplit(s, sep, 0, -1)`, which
sets `n = Count(s, sep) + 1`, clamps it to `len(s) + 1` and runs the loop `n - 1` times. -/
def Split (s : GoString) (sep : Byte) : List GoString :=
  genSplit sep (min (Count s sep + 1) (s.length + 1) - 1) s

/-! ## Configuration and errors -/

/-- The Go struct `ZookeeperConfig`. -/
structure ZookeeperConfig where
  Servers : List GoString
  RootPath : GoString
  MasterPath : GoString
  deriving DecidableEq

/-- The constant `DefaultRootPath`. -/
def DefaultRootPath : GoString := str "/GOLANG_ELECTING_MASTER"

/-- The constant `DefaultMasterPath`. -/
def DefaultMasterPath : GoString := str "/MASTER"

/-- An error of the coordination client library, identified by its error code. -/
structure ZKError where
  code : Int
  deriving DecidableEq

/-- The library error `zk.ErrNodeExists` (code -110). -/
def ErrNodeExists : ZKError := ⟨-110⟩

/-- The library error `zk.ErrNoNode` (code -101). -/
def ErrNoNode : ZKError := ⟨-101⟩

/-- The non-nil `error` values the package returns. -/
inductive GoError where
  /-- The value `errors.New("empty zookeeper address.")`. -/
  | emptyAddress
  /-- The value `errors.New("connect to zookeeper server timeout!")`. -/
  | connectTimeout
  /-- The value `errors.New("Create returned different path " + want + " != " + got)`. -/
  | differentPath (want got : GoString)
  /-- An error handed back by the coordination client. -/
  | zk (e : ZKError)
  deriving DecidableEq

/-- The ways a call ends other than by returning `nil`. -/
inductive Fail where
  /-- The call returned a non-nil error. -/
  | err (e : GoError)
  /-- The call panicked at run time (index out of range, nil dereference). -/
  | panic
  deriving DecidableEq

/-! ## Connection-target parsing (`GoElectingMaster`, lines 33-54) -/

/-- The parsing step of `GoElectingMaster`: from `zkAddr` to the resolved configuration. -/
def parseZkAddr (zkAddr : GoString) : Except Fail ZookeeperConfig :=
  let zkConf : ZookeeperConfig :=
    { Servers := [], RootPath := DefaultRootPath, MasterPath := DefaultMasterPath }
  if zkAddr = [] then
    .error (.err .emptyAddress)
  else
    let parts : Option (GoString × GoString) :=
      if Contains zkAddr slash then
        let sp := Split zkAddr slash
        match sp[0]?, sp[1]? with
        | some s0, some s1 => some (s0, s1)
        | _, _ => none
      else
        some (zkAddr, [])
    match parts with
    | none => .error .panic
    | some (serversStr, pathStr) =>
      let zkConf :=
        if pathStr ≠ [] then { zkConf with RootPath := slash :: pathStr } else zkConf
      let zkConf :=
        if Contains serversStr comma then
          { zkConf with Servers := Split serversStr comma }
        else
          { zkConf with Servers := [serversStr] }
      .ok zkConf

/-- The text of `s` before its first `'/'` (all of `s` when it has none). -/
def beforeSlash (s : GoString) : GoString := s.takeWhile (· != slash)

/-- The text of `s` after its first `'/'` (empty when it has none). -/
def afterSlash (s : GoString) : GoString := (s.dropWhile (· != slash)).drop 1

/-- Reference for the endpoints: the comma-separated pieces of the text before the `'/'`. -/
def refServers (s : GoString) : List GoString := (beforeSlash s).splitOn comma

/-- Reference for the root path: `"/"` followed by the text after the `'/'` when that text
is non-empty, the default otherwise. -/
def refRootPath (s : GoString) : GoString :=
  if afterSlash s ≠ [] then slash :: afterSlash s else DefaultRootPath


/-! ## The coordination client library (`github.com/samuel/go-zookeeper/zk`) -/

/-- The library type `zk.State` (an `int32`). -/
abbrev State := Int

/-- The library constant `zk.StateConnecting`. -/
def StateConnecting : State := 1

/-- The library constant `zk.StateConnected`. -/
def StateConnected : State := 100

/-- The library type `zk.EventType` (an `int32`). -/
abbrev EventType := Int

/-- The library constant `zk.EventNodeDeleted`. -/
def EventNodeDeleted : EventType := 2

/-- The library struct `zk.Event`, with the fields the package reads or logs. -/
structure Event where
  Type_ : EventType
  State : State
  Path : GoString
  deriving DecidableEq

/-- The library struct `zk.ACL`. -/
structure ACL where
  Perms : Int
  Scheme : GoString
  ID : GoString
  deriving DecidableEq

/-- The library constant `zk.PermAll`. -/
def PermAll : Int := 31

/-- The library function `zk.WorldACL`. -/
def WorldACL (perms : Int) : List ACL :=
  [{ Perms := perms, Scheme := str "world", ID := str "anyone" }]

/-- The library constant `zk.FlagEphemeral`. -/
def FlagEphemeral : Int := 1

/-- The constant `time.Second`, in nanoseconds. -/
def timeSecond : Nat := 1000000000

/-- The coordination service as the package sees it, over a service state `σ` and a
connection handle `κ`. Every call takes the service state and gives the next one back, so
any behaviour of the service, other clients included, is some `ZKOps`.

* `Connect servers sessionTimeout` is `zk.Connect`: an error, or the connection and the
  events its channel delivers, in order, each within three seconds of the one before;
  after the last of them the channel stays silent for three seconds.
* `State`, `Exists`, `Create`, `ChildrenW` are the methods of `*zk.Conn`; of the results
  of `Exists` and `ChildrenW` only those the package uses are kept (the `Stat` is dropped,
  the event channel of `ChildrenW` is the feed given to `WatchMaster`). -/
structure ZKOps (σ κ : Type) where
  Connect : List GoString → Nat → σ → Except ZKError (κ × List Event) × σ
  State : κ → σ → State
  Exists : κ → GoString → σ → Except ZKError Bool × σ
  Create : κ → GoString → List Byte → Int → List ACL → σ → Except ZKError GoString × σ
  ChildrenW : κ → GoString → σ → Except ZKError (List GoString) × σ

/-! ## The election manager -/

/-- The Go struct `ElectionManager`. The channel `IsMasterQ` is represented by the values
sent on it so far, oldest first; a send is taken to complete (the channel has room or a
receiver is waiting). -/
structure ElectionManager (κ : Type) where
  ZKClientConn : Option κ
  ZKConfig : ZookeeperConfig
  IsMasterQ : List Bool

/-- One observable action of a process, in the order it happened. -/
inductive LogEntry where
  /-- The function `electMaster` was entered. -/
  | electMaster
  /-- A call of `zk.Connect`, and whether it returned a connection. -/
  | Connect (servers : List GoString) (ok : Bool)
  /-- A call of `Exists` and its result. -/
  | Exists (path : GoString) (res : Except ZKError Bool)
  /-- A call of `Create` and its result. -/
  | Create (path : GoString) (flags : Int) (res : Except ZKError GoString)
  /-- A call of `ChildrenW`, and whether it installed a watch. -/
  | ChildrenW (path : GoString) (ok : Bool)

/-- A process running the package: its election manager and the log of what it did. -/
structure Proc (κ : Type) where
  em : ElectionManager κ
  log : List LogEntry

/-- Append an entry to the log. -/
def Proc.record {κ : Type} (p : Proc κ) (e : LogEntry) : Proc κ :=
  { p with log := p.log ++ [e] }

/-- The statement `electionManager.IsMasterQ <- v`. -/
def Proc.send {κ : Type} (p : Proc κ) (v : Bool) : Proc κ :=
  { p with em := { p.em with IsMasterQ := p.em.IsMasterQ ++ [v] } }

/-- The method `isConnected`. -/
def isConnected {σ κ : Type} (ops : ZKOps σ κ) (p : Proc κ) (zk : σ) : Bool :=
  match p.em.ZKClientConn with
  | none => false
  | some conn => if ops.State conn zk ≠ StateConnected then false else true

/-- The wait loop of `initConnection` over the events of the connection channel: `true`
when an event with state `StateConnected` arrives, `false` when three seconds pass without
an event. A channel that keeps delivering other events for ever keeps the loop running;
such a run never returns and is not a list. -/
def awaitConnected : List Event → Bool
  | [] => false
  | connEvent :: rest =>
    if connEvent.State = StateConnected then true else awaitConnected rest

/-- The method `initConnection`. -/
def initConnection {σ κ : Type} (ops : ZKOps σ κ) (p : Proc κ) (zk : σ) :
    Option Fail × Proc κ × σ :=
  if !isConnected ops p zk then
    match ops.Connect p.em.ZKConfig.Servers timeSecond zk with
    | (.error err, zk) =>
      (some (.err (.zk err)), p.record (.Connect p.em.ZKConfig.Servers false), zk)
    | (.ok (conn, connChan), zk) =>
      let p := p.record (.Connect p.em.ZKConfig.Servers true)
      if awaitConnected connChan then
        (none, { p with em := { p.em with ZKClientConn := some conn } }, zk)
      else
        (some (.err .connectTimeout), p, zk)
  else
    (none, p, zk)

/-- The method `electMaster`: the value returned (`none` for `nil`), the process and the
service afterwards. -/
def electMaster {σ κ : Type} (ops : ZKOps σ κ) (p : Proc κ) (zk : σ) :
    Option Fail × Proc κ × σ :=
  match initConnection ops (p.record .electMaster) zk with
  | (some f, p, zk) => (some f, p, zk)
  | (none, p, zk) =>
    match p.em.ZKClientConn with
    | none => (some .panic, p, zk)
    | some conn =>
      let rootPath := p.em.ZKConfig.RootPath
      match ops.Exists conn rootPath zk with
      | (.error err, zk) =>
        (some (.err (.zk err)), p.record (.Exists rootPath (.error err)), zk)
      | (.ok isExist, zk) =>
        let p := p.record (.Exists rootPath (.ok isExist))
        let root : Option Fail × Proc κ × σ :=
          if !isExist then
            match ops.Create conn rootPath [] 0 (WorldACL PermAll) zk with
            | (.error err, zk) =>
              (some (.err (.zk err)), p.record (.Create rootPath 0 (.error err)), zk)
            | (.ok path, zk) =>
              let p := p.record (.Create rootPath 0 (.ok path))
              if rootPath ≠ path then
                (some (.err (.differentPath rootPath path)), p, zk)
              else
                (none, p, zk)
          else
            (none, p, zk)
        match root with
        | (some f, p, zk) => (some f, p, zk)
        | (none, p, zk) =>
          let masterPath := rootPath ++ p.em.ZKConfig.MasterPath
          match ops.Create conn masterPath [] FlagEphemeral (WorldACL PermAll) zk with
          | (.ok path, zk) =>
            let p := p.record (.Create masterPath FlagEphemeral (.ok path))
            if path = masterPath then
              (none, p.send true, zk)
            else
              (some (.err (.differentPath masterPath path)), p, zk)
          | (.error err, zk) =>
            (none, (p.record (.Create masterPath FlagEphemeral (.error err))).send false, zk)

/-- What happens while `WatchMaster` waits in its `select`: the rest of the world acts on
the service, then an event arrives on the watch channel. -/
structure Arrival (σ : Type) where
  env : σ → σ
  event : Event

/-- Where the loop of `WatchMaster` stands. -/
inductive LoopStatus where
  /-- Blocked in the `select`, waiting for the next event. -/
  | waiting
  /-- Stopped by a run-time panic. -/
  | panicked
  deriving DecidableEq

/-- The `for`/`select` loop of `WatchMaster` run over the events that arrive. -/
def watchLoop {σ κ : Type} (ops : ZKOps σ κ) :
    Proc κ → σ → List (Arrival σ) → LoopStatus × Proc κ × σ
  | p, zk, [] => (.waiting, p, zk)
  | p, zk, a :: rest =>
    let zk := a.env zk
    let childEvent := a.event
    if childEvent.Type_ = EventNodeDeleted then
      match electMaster ops p zk with
      | (some .panic, p, zk) => (.panicked, p, zk)
      | (_, p, zk) => watchLoop ops p zk rest
    else
      watchLoop ops p zk rest

/-- The method `WatchMaster`, run over the events `feed` that the watch channel delivers.
When `ChildrenW` fails the channel it returns is nil and no event is ever received. -/
def WatchMaster {σ κ : Type} (ops : ZKOps σ κ) (p : Proc κ) (zk : σ) (feed : List (Arrival σ)) :
    LoopStatus × Proc κ × σ :=
  match p.em.ZKClientConn with
  | none => (.panicked, p, zk)
  | some conn =>
    let path := p.em.ZKConfig.RootPath ++ p.em.ZKConfig.MasterPath
    match ops.ChildrenW conn path zk with
    | (.error _, zk) => (.waiting, p.record (.ChildrenW path false), zk)
    | (.ok _, zk) => watchLoop ops (p.record (.ChildrenW path true)) zk feed

/-- How a call of `GoElectingMaster` ends. -/
inductive StartResult (σ κ : Type) where
  /-- The target was refused by the parsing step; no manager was built, nothing called. -/
  | rejected (f : Fail)
  /-- The first election failed; `WatchMaster` was not started. -/
  | failed (f : Fail) (p : Proc κ) (zk : σ)
  /-- The first election returned `nil` and `WatchMaster` was started on `p`. -/
  | started (p : Proc κ) (zk : σ)

/-- The function `GoElectingMaster`; `isMasterQ` is what was sent on the channel before. -/
def GoElectingMaster {σ κ : Type} (ops : ZKOps σ κ) (zkAddr : GoString)
    (isMasterQ : List Bool) (zk : σ) :
    StartResult σ κ :=
  match parseZkAddr zkAddr with
  | .error f => .rejected f
  | .ok zkConf =>
    let electionManager : ElectionManager κ :=
      { ZKClientConn := none, ZKConfig := zkConf, IsMasterQ := isMasterQ }
    match electMaster ops { em := electionManager, log := [] } zk with
    | (some err, p, zk) => .failed err p zk
    | (none, p, zk) => .started p zk

/-! ## `electMaster` one coordination call at a time -/

/-- Where a process stands inside `electMaster`. -/
inductive PC where
  /-- About to run `initConnection`. -/
  | init
  /-- About to call `Exists` on the root path. -/
  | checkRoot
  /-- About to call `Create` on the root path. -/
  | createRoot
  /-- About to call `Create` on the marker path. -/
  | createMaster
  /-- Finished, with the value returned. -/
  | done (ret : Option Fail)
  deriving DecidableEq

/-- A process inside `electMaster`. -/
structure Thread (κ : Type) where
  proc : Proc κ
  pc : PC

/-- One step of `electMaster`: the code up to and including the next coordination call. -/
def electStep {σ κ : Type} (ops : ZKOps σ κ) (t : Thread κ) (zk : σ) : Thread κ × σ :=
  let p := t.proc
  let rootPath := p.em.ZKConfig.RootPath
  let masterPath := rootPath ++ p.em.ZKConfig.MasterPath
  match t.pc with
  | .init =>
    match initConnection ops (p.record .electMaster) zk with
    | (some f, p, zk) => (⟨p, .done (some f)⟩, zk)
    | (none, p, zk) => (⟨p, .checkRoot⟩, zk)
  | .checkRoot =>
    match p.em.ZKClientConn with
    | none => (⟨p, .done (some .panic)⟩, zk)
    | some conn =>
      match ops.Exists conn rootPath zk with
      | (.error err, zk) =>
        (⟨p.record (.Exists rootPath (.error err)), .done (some (.err (.zk err)))⟩, zk)
      | (.ok isExist, zk) =>
        (⟨p.record (.Exists rootPath (.ok isExist)),
          if !isExist then .createRoot else .createMaster⟩, zk)
  | .createRoot =>
    match p.em.ZKClientConn with
    | none => (⟨p, .done (some .panic)⟩, zk)
    | some conn =>
      match ops.Create conn rootPath [] 0 (WorldACL PermAll) zk with
      | (.error err, zk) =>
        (⟨p.record (.Create rootPath 0 (.error err)), .done (some (.err (.zk err)))⟩, zk)
      | (.ok path, zk) =>
        (⟨p.record (.Create rootPath 0 (.ok path)),
          if rootPath ≠ path then .done (some (.err (.differentPath rootPath path)))
          else .createMaster⟩, zk)
  | .createMaster =>
    match p.em.ZKClientConn with
    | none => (⟨p, .done (some .panic)⟩, zk)
    | some conn =>
      match ops.Create conn masterPath [] FlagEphemeral (WorldACL PermAll) zk with
      | (.ok path, zk) =>
        let p := p.record (.Create masterPath FlagEphemeral (.ok path))
        if path = masterPath then (⟨p.send true, .done none⟩, zk)
        else (⟨p, .done (some (.err (.differentPath masterPath path)))⟩, zk)
      | (.error err, zk) =>
        (⟨(p.record (.Create masterPath FlagEphemeral (.error err))).send false, .done none⟩, zk)
  | .done _ => (t, zk)

/-- Run `n` steps of one process. -/
def electRun {σ κ : Type} (ops : ZKOps σ κ) : Nat → Thread κ → σ → Thread κ × σ
  | 0, t, zk => (t, zk)
  | n + 1, t, zk => let r := electStep ops t zk; electRun ops n r.1 r.2

/-- Two processes sharing one coordination service. -/
structure Pair (σ κ : Type) where
  first : Thread κ
  second : Thread κ
  zk : σ

/-- Run two processes under a schedule: at `true` the first process takes its next step,
at `false` the second does. -/
def runSchedule {σ κ : Type} (ops : ZKOps σ κ) : List Bool → Pair σ κ → Pair σ κ
  | [], s => s
  | true :: rest, s =>
    let r := electStep ops s.first s.zk
    runSchedule ops rest { s with first := r.1, zk := r.2 }
  | false :: rest, s =>
    let r := electStep ops s.second s.zk
    runSchedule ops rest { s with second := r.1, zk := r.2 }

/-! ## Reading a log -/

/-- The number of times `electMaster` was entered. -/
def electCount (log : List LogEntry) : Nat :=
  (log.filter fun e => match e with | .electMaster => true | _ => false).length

/-- The number of `ChildrenW` calls. -/
def childrenWCount (log : List LogEntry) : Nat :=
  (log.filter fun e => match e with | .ChildrenW _ _ => true | _ => false).length

/-- Whether the entry is a `Create` that succeeded with a path other than the one asked. -/
def LogEntry.isMismatch : LogEntry → Bool
  | .Create path _ (.ok got) => decide (got ≠ path)
  | _ => false

/-! ## A fake coordination service -/

/-- Modelled from the spec: a node of the service's namespace, with its data, its access
control list and, for an ephemeral node, the session that owns it (`none` for a permanent
node). -/
structure Node where
  data : List Byte
  ephemeralOwner : Option Nat
  acl : List ACL
  deriving DecidableEq

/-- Modelled from the spec: the fake coordination service. The namespace is a table from
paths to nodes (a path holds at most one node, and a create on a path that holds one
fails); sessions are numbered, each with its connection state; `connectError` and
`connectEvents` say what the next `Connect` yields. -/
structure FakeZK where
  nodes : List (GoString × Node)
  sessions : List State
  connectError : Option ZKError
  connectEvents : List Event

/-- The node at `path`, if there is one. -/
def FakeZK.lookup (zk : FakeZK) (path : GoString) : Option Node := zk.nodes.lookup path

/-- Whether a node exists at `path`. -/
def FakeZK.has (zk : FakeZK) (path : GoString) : Bool := (zk.lookup path).isSome

/-- The service with a node added at `path`. -/
def FakeZK.insert (zk : FakeZK) (path : GoString) (n : Node) : FakeZK :=
  { zk with nodes := (path, n) :: zk.nodes }

/-- The state a session is left in by the events of its connection channel. -/
def lastState : List Event → State
  | [] => StateConnecting
  | [ev] => ev.State
  | _ :: rest => lastState rest

/-- The name of `p` as a child of `parent`: `p` is `parent`, a slash and a name without a
slash. -/
def childName (parent p : GoString) : Option GoString :=
  if (parent ++ [slash]).isPrefixOf p then
    let name := p.drop (parent.length + 1)
    if name ≠ [] ∧ slash ∉ name then some name else none
  else none

/-- Modelled from the spec: the calls of the fake coordination service. `Connect` opens a
new session; `Exists` reads the table; `Create` adds a node, owned by the calling session
when the flag is `FlagEphemeral`, and echoes the path, or fails with `ErrNodeExists` when
the path is taken; `ChildrenW` lists the children of an existing node. -/
def fakeOps : ZKOps FakeZK Nat where
  Connect := fun _ _ zk =>
    match zk.connectError with
    | some err => (.error err, zk)
    | none =>
      (.ok (zk.sessions.length, zk.connectEvents),
        { zk with sessions := zk.sessions ++ [lastState zk.connectEvents] })
  State := fun conn zk => zk.sessions.getD conn StateConnecting
  Exists := fun _ path zk => (.ok (zk.has path), zk)
  Create := fun conn path data flags acl zk =>
    if zk.has path then (.error ErrNodeExists, zk)
    else
      (.ok path,
        zk.insert path
          { data := data,
            ephemeralOwner := if flags = FlagEphemeral then some conn else none,
            acl := acl })
  ChildrenW := fun _ path zk =>
    if zk.has path then (.ok (zk.nodes.filterMap fun n => childName path n.1), zk)
    else (.error ErrNoNode, zk)

/-- Modelled from the spec: the node at `path` is removed from the fake service. -/
def FakeZK.delete (path : GoString) (zk : FakeZK) : FakeZK :=
  { zk with nodes := zk.nodes.filter fun n => n.1 ≠ path }

/-- The fake service connects: `Connect` returns a connection whose channel delivers an
event with state `StateConnected`. -/
def FakeZK.connects (zk : FakeZK) : Prop :=
  zk.connectError = none ∧ awaitConnected zk.connectEvents = true

instance FakeZK.decidableConnects (zk : FakeZK) : Decidable zk.connects := by
  unfold FakeZK.connects
  infer_instance

/-- A fake service with an empty namespace whose sessions connect. -/
def emptyFake : FakeZK :=
  { nodes := [], sessions := [], connectError := none,
    connectEvents := [⟨-1, StateConnecting, []⟩, ⟨-1, StateConnected, []⟩] }

/-- The configuration `GoElectingMaster` builds for the target `"h1:2181"`. -/
def defaultConfig : ZookeeperConfig :=
  { Servers := [str "h1:2181"], RootPath := DefaultRootPath, MasterPath := DefaultMasterPath }

/-- A process as `GoElectingMaster` builds it: no connection, nothing sent, nothing done. -/
def newProc (κ : Type) (cfg : ZookeeperConfig) : Proc κ :=
  { em := { ZKClientConn := none, ZKConfig := cfg, IsMasterQ := [] }, log := [] }

/-- A service that is always connected, reports every node as present and answers every
create with the path `"/other"`. -/
def wrongPathOps : ZKOps Unit Unit where
  Connect := fun _ _ s => (.ok ((), [⟨-1, StateConnected, []⟩]), s)
  State := fun _ _ => StateConnected
  Exists := fun _ _ s => (.ok true, s)
  Create := fun _ _ _ _ _ s => (.ok (str "/other"), s)
  ChildrenW := fun _ _ s => (.ok [], s)

/-- A service to which no connection can be opened (error code -4, connection loss). -/
def downOps : ZKOps Unit Unit where
  Connect := fun _ _ s => (.error ⟨-4⟩, s)
  State := fun _ _ => StateConnecting
  Exists := fun _ _ s => (.error ⟨-4⟩, s)
  Create := fun _ _ _ _ _ s => (.error ⟨-4⟩, s)
  ChildrenW := fun _ _ s => (.error ⟨-4⟩, s)

/-! ## A finite view of two racing processes -/

/-- Where a process stands in the race, as far as the outcome depends on it: the four
program points before the end, the three ways a call ends against the fake service, and
`other` for anything else. -/
inductive Stage where
  | init
  | checkRoot
  | createRoot
  | createMaster
  /-- Returned `nil` after sending `true`. -/
  | leader
  /-- Returned `nil` after sending `false`. -/
  | standby
  /-- Returned the node-exists error of the root create; sent nothing. -/
  | rootLost
  | other
  deriving DecidableEq

/-- The stage of a process, given what had been sent on its channel before the call. -/
def stageOf (q : List Bool) (t : Thread Nat) : Stage :=
  match t.pc with
  | .init => if t.proc.em.IsMasterQ = q then .init else .other
  | .checkRoot =>
    if t.proc.em.IsMasterQ = q ∧ t.proc.em.ZKClientConn.isSome then .checkRoot else .other
  | .createRoot =>
    if t.proc.em.IsMasterQ = q ∧ t.proc.em.ZKClientConn.isSome then .createRoot else .other
  | .createMaster =>
    if t.proc.em.IsMasterQ = q ∧ t.proc.em.ZKClientConn.isSome then .createMaster else .other
  | .done none =>
    if t.proc.em.IsMasterQ = q ++ [true] then .leader
    else if t.proc.em.IsMasterQ = q ++ [false] then .standby
    else .other
  | .done (some f) =>
    if t.proc.em.IsMasterQ = q ∧ f = .err (.zk ErrNodeExists) then .rootLost else .other

/-- One step of a process in the finite view: its next stage, and whether the root and
the marker exist afterwards. -/
def stageStep (a : Stage) (root marker : Bool) : Stage × Bool × Bool :=
  match a with
  | .init => (.checkRoot, root, marker)
  | .checkRoot => (if root then .createMaster else .createRoot, root, marker)
  | .createRoot => if root then (.rootLost, root, marker) else (.createMaster, true, marker)
  | .createMaster => if marker then (.standby, root, marker) else (.leader, root, true)
  | a => (a, root, marker)

/-- The finite view of two processes and the service: the two stages, whether the root
exists, whether the marker exists. -/
structure View where
  first : Stage
  second : Stage
  root : Bool
  marker : Bool
  deriving DecidableEq

/-- One scheduled step in the finite view. -/
def View.step (b : Bool) (v : View) : View :=
  if b then
    let r := stageStep v.first v.root v.marker
    { v with first := r.1, root := r.2.1, marker := r.2.2 }
  else
    let r := stageStep v.second v.root v.marker
    { v with second := r.1, root := r.2.1, marker := r.2.2 }

/-- Whether a stage is past the creation or sighting of the root node. -/
def Stage.sawRoot : Stage → Bool
  | .createMaster | .leader | .standby => true
  | _ => false

/-- Whether a stage is the end of a call. -/
def Stage.finished : Stage → Bool
  | .leader | .standby | .rootLost => true
  | _ => false

/-- The number of steps a stage is away from `init`, four at the end. -/
def Stage.rank : Stage → Nat
  | .init => 0
  | .checkRoot => 1
  | .createRoot => 2
  | .createMaster => 3
  | _ => 4

/-- The invariant of the race in the finite view. -/
def View.ok (v : View) : Bool :=
  v.first != .other && v.second != .other &&
  (v.marker == (v.first == .leader || v.second == .leader)) &&
  !(v.first == .leader && v.second == .leader) &&
  (!(v.first == .standby) || v.marker) && (!(v.second == .standby) || v.marker) &&
  (!v.root || v.first.sawRoot || v.second.sawRoot) &&
  (!(v.first == .rootLost) || v.root) && (!(v.second == .rootLost) || v.root)

/-- The outcome of a finished race: one leader, the other standing by or beaten to the
root node. -/
def View.decided (v : View) : Bool :=
  (v.first == .leader && (v.second == .standby || v.second == .rootLost)) ||
  (v.second == .leader && (v.first == .standby || v.first == .rootLost))

/-- The finite view of a pair of processes racing for the paths of `cfg`. -/
def viewOf (cfg : ZookeeperConfig) (q1 q2 : List Bool) (s : Pair FakeZK Nat) : View :=
  { first := stageOf q1 s.first, second := stageOf q2 s.second,
    root := s.zk.has cfg.RootPath, marker := s.zk.has (cfg.RootPath ++ cfg.MasterPath) }

/-- Two processes about to call `electMaster` with the same configuration. -/
def startPair (cfg : ZookeeperConfig) (c1 c2 : Option Nat) (q1 q2 : List Bool)
    (zk : FakeZK) : Pair FakeZK Nat :=
  { first := ⟨⟨⟨c1, cfg, q1⟩, []⟩, .init⟩, second := ⟨⟨⟨c2, cfg, q2⟩, []⟩, .init⟩, zk := zk }

/-- The call returned `nil` and sent exactly `true` after the earlier values `q`. -/
def Thread.isLeader {κ : Type} (q : List Bool) (t : Thread κ) : Prop :=
  t.pc = .done none ∧ t.proc.em.IsMasterQ = q ++ [true]

/-- The call returned `nil` and sent exactly `false` after the earlier values `q`. -/
def Thread.isStandby {κ : Type} (q : List Bool) (t : Thread κ) : Prop :=
  t.pc = .done none ∧ t.proc.em.IsMasterQ = q ++ [false]

/-- The call returned the node-exists error of the service and sent nothing. -/
def Thread.lostRoot {κ : Type} (q : List Bool) (t : Thread κ) : Prop :=
  t.pc = .done (some (.err (.zk ErrNodeExists))) ∧ t.proc.em.IsMasterQ = q
/-! ## Facts about the string functions -/

theorem Index_eq_none {s : GoString} {sep : Byte} : Index s sep = none ↔ sep ∉ s := by
  induction s with
  | nil => simp [Index]
  | cons c cs ih =>
    by_cases h : c = sep
    · simp [Index, h]
    · simp [Index, h, ih, Ne.symm h]

theorem Contains_iff {s : GoString} {sep : Byte} : Contains s sep = true ↔ sep ∈ s := by
  have h := @Index_eq_none s sep
  unfold Contains
  cases hi : Index s sep with
  | none => simpa using h.mp hi
  | some m =>
    simp only [Option.isSome_some, true_iff]
    by_contra hn
    rw [h.mpr hn] at hi
    cases hi

theorem Index_some_split {s : GoString} {sep : Byte} {m : Nat} (h : Index s sep = some m) :
    s = s.take m ++ sep :: s.drop (m + 1) ∧ sep ∉ s.take m := by
  induction s generalizing m with
  | nil => simp [Index] at h
  | cons c cs ih =>
    by_cases hc : c = sep
    · simp [Index, hc] at h
      subst h
      simp [hc]
    · simp only [Index, hc, if_false, Option.map_eq_some'] at h
      obtain ⟨k, hk, rfl⟩ := h
      obtain ⟨h1, h2⟩ := ih hk
      refine ⟨?_, ?_⟩
      · simp only [List.take_succ_cons, List.drop_succ_cons, List.cons_append]
        rw [← h1]
      · simp only [List.take_succ_cons, List.mem_cons, not_or]
        exact ⟨Ne.symm hc, h2⟩

theorem splitOn_append_sep {sep : Byte} {pre : GoString} (rest : GoString) (h : sep ∉ pre) :
    (pre ++ sep :: rest).splitOn sep = pre :: rest.splitOn sep := by
  unfold List.splitOn
  apply List.splitOnP_first
  · intro x hx hxs
    simp only [beq_iff_eq] at hxs
    exact h (hxs ▸ hx)
  · simp

theorem splitOn_of_not_mem {sep : Byte} {s : GoString} (h : sep ∉ s) : s.splitOn sep = [s] := by
  unfold List.splitOn
  apply List.splitOnP_eq_single
  intro x hx hxs
  simp only [beq_iff_eq] at hxs
  exact h (hxs ▸ hx)

theorem genSplit_eq_splitOn (sep : Byte) (n : Nat) (s : GoString) (h : s.count sep ≤ n) :
    genSplit sep n s = s.splitOn sep := by
  induction n generalizing s with
  | zero =>
    have : sep ∉ s := by
      intro hm
      have := List.count_pos_iff.mpr hm
      omega
    simp [genSplit, splitOn_of_not_mem this]
  | succ n ih =>
    unfold genSplit
    cases hi : Index s sep with
    | none => simp [splitOn_of_not_mem (Index_eq_none.mp hi)]
    | some m =>
      obtain ⟨h1, h2⟩ := Index_some_split hi
      simp only
      have hc : (s.drop (m + 1)).count sep ≤ n := by
        have : s.count sep = (s.take m).count sep + (1 + (s.drop (m + 1)).count sep) := by
          conv_lhs => rw [h1]
          simp [List.count_append, List.count_cons, Nat.add_comm]
        omega
      rw [ih _ hc]
      conv_rhs => rw [h1]
      rw [splitOn_append_sep _ h2]

theorem Split_eq_splitOn (s : GoString) (sep : Byte) : Split s sep = s.splitOn sep := by
  unfold Split Count
  apply genSplit_eq_splitOn
  have := List.count_le_length sep s
  omega

theorem not_mem_takeWhile_ne (sep : Byte) (s : GoString) : sep ∉ s.takeWhile (· != sep) := by
  intro h
  have := List.mem_takeWhile_imp h
  simp at this

theorem eq_takeWhile_append_of_mem {sep : Byte} {s : GoString} (h : sep ∈ s) :
    s = s.takeWhile (· != sep) ++ sep :: (s.dropWhile (· != sep)).drop 1 := by
  induction s with
  | nil => simp at h
  | cons c cs ih =>
    by_cases hc : c = sep
    · simp [hc]
    · have hm : sep ∈ cs := by
        rcases List.mem_cons.mp h with h | h
        · exact absurd h.symm hc
        · exact h
      have hne : (c != sep) = true := by simpa using hc
      simp only [List.takeWhile_cons, List.dropWhile_cons, hne, if_true, List.cons_append]
      rw [← ih hm]

theorem takeWhile_ne_of_not_mem {sep : Byte} {s : GoString} (h : sep ∉ s) :
    s.takeWhile (· != sep) = s := by
  rw [List.takeWhile_eq_self_iff]
  intro x hx
  simp only [bne_iff_ne, ne_eq]
  intro hxs
  exact h (hxs ▸ hx)

theorem dropWhile_ne_of_not_mem {sep : Byte} {s : GoString} (h : sep ∉ s) :
    s.dropWhile (· != sep) = [] := by
  rw [List.dropWhile_eq_nil_iff]
  intro x hx
  simp only [bne_iff_ne, ne_eq]
  intro hxs
  exact h (hxs ▸ hx)

/-- The pieces of a split: the text before the first separator, then the pieces of the
text after it. -/
theorem splitOn_of_mem {sep : Byte} {s : GoString} (h : sep ∈ s) :
    s.splitOn sep =
      s.takeWhile (· != sep) :: ((s.dropWhile (· != sep)).drop 1).splitOn sep := by
  conv_lhs => rw [eq_takeWhile_append_of_mem h]
  exact splitOn_append_sep _ (not_mem_takeWhile_ne sep s)

theorem splitOn_head (sep : Byte) (s : GoString) :
    ∃ t, s.splitOn sep = s.takeWhile (· != sep) :: t := by
  by_cases h : sep ∈ s
  · exact ⟨_, splitOn_of_mem h⟩
  · exact ⟨[], by rw [splitOn_of_not_mem h, takeWhile_ne_of_not_mem h]⟩

/-! ## The parsing step -/

theorem servers_eq_splitOn (x : GoString) :
    (if Contains x comma = true then Split x comma else [x]) = x.splitOn comma := by
  by_cases h : Contains x comma = true
  · simp [h, Split_eq_splitOn]
  · have : comma ∉ x := fun hm => h (Contains_iff.mpr hm)
    simp [h, splitOn_of_not_mem this]

/-- What the parsing step computes on a non-empty target, for any number of slashes. -/
theorem parseZkAddr_eq (s : GoString) (h : s ≠ []) :
    parseZkAddr s = .ok
      { Servers := (beforeSlash s).splitOn comma
        RootPath :=
          if beforeSlash (afterSlash s) ≠ [] then slash :: beforeSlash (afterSlash s)
          else DefaultRootPath
        MasterPath := DefaultMasterPath } := by
  unfold parseZkAddr
  simp only [h, if_false]
  by_cases hc : Contains s slash = true
  · have hm : slash ∈ s := Contains_iff.mp hc
    obtain ⟨t, ht⟩ := splitOn_head slash (afterSlash s)
    have hsp : Split s slash = beforeSlash s :: beforeSlash (afterSlash s) :: t := by
      rw [Split_eq_splitOn, splitOn_of_mem hm]
      unfold afterSlash at ht
      rw [ht]
      rfl
    simp only [hc, if_true, hsp]
    have := servers_eq_splitOn (beforeSlash s)
    by_cases hp : beforeSlash (afterSlash s) = []
    · by_cases hcm : Contains (beforeSlash s) comma = true
      · simp [hp, hcm] at this ⊢
        exact this
      · simp [hp, hcm] at this ⊢
        exact this
    · by_cases hcm : Contains (beforeSlash s) comma = true
      · simp [hp, hcm] at this ⊢
        exact this
      · simp [hp, hcm] at this ⊢
        exact this
  · have hm : slash ∉ s := fun hm => hc (Contains_iff.mpr hm)
    have hb : beforeSlash s = s := takeWhile_ne_of_not_mem hm
    have ha : afterSlash s = [] := by
      unfold afterSlash
      rw [dropWhile_ne_of_not_mem hm]
      rfl
    have hba : beforeSlash ([] : GoString) = [] := rfl
    simp only [hc, hb, ha, hba]
    have := servers_eq_splitOn s
    by_cases hcm : Contains s comma = true
    · simp [hcm] at this ⊢
      exact this
    · simp [hcm] at this ⊢
      exact this

theorem parseZkAddr_nil : parseZkAddr [] = .error (.err .emptyAddress) := rfl

theorem not_mem_afterSlash_of_count_le_one {s : GoString} (h : s.count slash ≤ 1) :
    slash ∉ afterSlash s := by
  by_cases hm : slash ∈ s
  · have hs := eq_takeWhile_append_of_mem hm
    have hc : s.count slash =
        (s.takeWhile (· != slash)).count slash + (1 + (afterSlash s).count slash) := by
      conv_lhs => rw [hs]
      simp [List.count_append, List.count_cons, Nat.add_comm, afterSlash]
    intro hin
    have := List.count_pos_iff.mpr hin
    omega
  · unfold afterSlash
    rw [dropWhile_ne_of_not_mem hm]
    simp

theorem beforeSlash_append_slash {servers : GoString} (ns : GoString) (h : slash ∉ servers) :
    beforeSlash (servers ++ slash :: ns) = servers ∧
      afterSlash (servers ++ slash :: ns) = ns := by
  unfold beforeSlash afterSlash
  constructor
  · rw [List.takeWhile_append_of_pos]
    · simp [takeWhile_ne_of_not_mem h]
    · intro x hx
      simp only [bne_iff_ne, ne_eq]
      intro hxs
      exact h (hxs ▸ hx)
  · rw [List.dropWhile_append_of_pos]
    · simp
    · intro x hx
      simp only [bne_iff_ne, ne_eq]
      intro hxs
      exact h (hxs ▸ hx)

/-- The namespace suffix is taken over as the root path when it has no inner slash. -/
theorem parseZkAddr_flat_namespace (servers ns : GoString) (hs : slash ∉ servers)
    (hne : ns ≠ []) (hflat : slash ∉ ns) :
    ∃ cfg, parseZkAddr (servers ++ slash :: ns) = .ok cfg ∧ cfg.RootPath = slash :: ns := by
  refine ⟨_, parseZkAddr_eq _ (by simp), ?_⟩
  obtain ⟨-, h2⟩ := beforeSlash_append_slash ns hs
  have h3 : beforeSlash ns = ns := takeWhile_ne_of_not_mem hflat
  simp [h2, h3, hne]

/-- C8: every non-empty connection target resolves to a configuration whose endpoint list
is non-empty and whose root path starts with exactly one slash: its first byte is a slash
and its second byte, if there is one, is not. -/
theorem parse_servers_nonempty_root_one_slash (zkAddr : GoString) (h : zkAddr ≠ []) :
    ∃ cfg, parseZkAddr zkAddr = .ok cfg ∧ cfg.Servers ≠ [] ∧
      cfg.RootPath[0]? = some slash ∧ cfg.RootPath[1]? ≠ some slash := by
  refine ⟨_, parseZkAddr_eq zkAddr h, ?_, ?_⟩
  · obtain ⟨t, ht⟩ := splitOn_head comma (beforeSlash zkAddr)
    simp [ht]
  · by_cases hp : beforeSlash (afterSlash zkAddr) = []
    · simp only [hp, ne_eq, not_true_eq_false, if_false]
      decide
    · simp only [hp, ne_eq, not_false_eq_true, if_true]
      have hnm : slash ∉ beforeSlash (afterSlash zkAddr) := not_mem_takeWhile_ne _ _
      cases hq : beforeSlash (afterSlash zkAddr) with
      | nil => exact absurd hq hp
      | cons a q =>
        rw [hq] at hnm
        simp only [List.mem_cons, not_or] at hnm
        simp only [List.getElem?_cons_zero, List.getElem?_cons_succ, ne_eq, Option.some.injEq,
          true_and]
        exact fun hh => hnm.1 hh.symm

/-- Witness for C8 at the target `"h1:2181,h2:2181/myapp"`. -/
theorem parse_servers_nonempty_root_one_slash_witness :
    str "h1:2181,h2:2181/myapp" ≠ [] ∧
    ∃ cfg, parseZkAddr (str "h1:2181,h2:2181/myapp") = .ok cfg ∧ cfg.Servers ≠ [] ∧
      cfg.RootPath[0]? = some slash ∧ cfg.RootPath[1]? ≠ some slash :=
  ⟨by decide, parse_servers_nonempty_root_one_slash (str "h1:2181,h2:2181/myapp") (by decide)⟩

/-- C9, evaluated at the target `"h1:2181/a/b"` (servers `"h1:2181"`, namespace `"a/b"`):
the parsing step keeps only the first segment and sets the root path to `"/a"`, which is
not `"/" + "a/b"`. -/
theorem parse_nested_namespace_truncated :
    slash ∉ str "h1:2181" ∧ str "a/b" ≠ [] ∧
    parseZkAddr (str "h1:2181" ++ slash :: str "a/b") =
      .ok { Servers := [str "h1:2181"], RootPath := str "/a", MasterPath := str "/MASTER" } ∧
    str "/a" ≠ slash :: str "a/b" :=
  ⟨by decide, by decide, by rfl, by decide⟩

/-- C10: on a target with at most one slash the parsing step agrees with the reference: it
fails exactly when the target is empty, with the empty-address error and before
`GoElectingMaster` calls the service; otherwise it resolves `Servers` to the
comma-separated pieces of the text before the slash and `RootPath` to a slash followed by
the text after it, or to the default when that text is empty. -/
theorem parse_agrees_with_reference (s : GoString) (h : s.count slash ≤ 1) :
    (s = [] → parseZkAddr s = .error (.err .emptyAddress)) ∧
    (s ≠ [] → parseZkAddr s = .ok
      { Servers := refServers s, RootPath := refRootPath s, MasterPath := DefaultMasterPath }) ∧
    ((∃ f, parseZkAddr s = .error f) ↔ s = []) ∧
    (∀ (σ κ : Type) (ops : ZKOps σ κ) (isMasterQ : List Bool) (zk : σ),
      s = [] → GoElectingMaster ops s isMasterQ zk = .rejected (.err .emptyAddress)) := by
  have hok : s ≠ [] → parseZkAddr s = .ok
      { Servers := refServers s, RootPath := refRootPath s,
        MasterPath := DefaultMasterPath } := by
    intro hne
    rw [parseZkAddr_eq s hne]
    have h3 : beforeSlash (afterSlash s) = afterSlash s :=
      takeWhile_ne_of_not_mem (not_mem_afterSlash_of_count_le_one h)
    simp only [h3, refServers, refRootPath]
  refine ⟨fun he => by rw [he]; rfl, hok, ⟨?_, ?_⟩, ?_⟩
  · rintro ⟨f, hf⟩
    by_contra hne
    rw [hok hne] at hf
    cases hf
  · intro he
    exact ⟨_, by rw [he]; rfl⟩
  · intro σ κ ops isMasterQ zk he
    rw [he]
    rfl

/-- Witness for C10: the two scenarios of the specification. -/
theorem parse_agrees_with_reference_witness :
    (str "h1:2181,h2:2181/myapp").count slash ≤ 1 ∧
    parseZkAddr (str "h1:2181,h2:2181/myapp") = .ok
      { Servers := [str "h1:2181", str "h2:2181"], RootPath := str "/myapp",
        MasterPath := DefaultMasterPath } ∧
    parseZkAddr (str "h1:2181") = .ok
      { Servers := [str "h1:2181"], RootPath := str "/GOLANG_ELECTING_MASTER",
        MasterPath := DefaultMasterPath } :=
  ⟨by decide,
   (parse_agrees_with_reference (str "h1:2181,h2:2181/myapp") (by decide)).2.1 (by decide),
   (parse_agrees_with_reference (str "h1:2181") (by decide)).2.1 (by decide)⟩

/-! ## The election engine over an arbitrary coordination service -/

theorem initConnection_spec {σ κ : Type} (ops : ZKOps σ κ) (p : Proc κ) (zk : σ) :
    ∃ l, (initConnection ops p zk).2.1.log = p.log ++ l ∧
      (∀ e ∈ l, e.isMismatch = false) ∧ electCount l = 0 ∧ childrenWCount l = 0 ∧
      (initConnection ops p zk).2.1.em.IsMasterQ = p.em.IsMasterQ ∧
      (initConnection ops p zk).2.1.em.ZKConfig = p.em.ZKConfig ∧
      ((initConnection ops p zk).1 = none →
        (initConnection ops p zk).2.1.em.ZKClientConn ≠ none) ∧
      (initConnection ops p zk).1 ≠ some .panic := by
  unfold initConnection
  split
  · rcases hc : ops.Connect p.em.ZKConfig.Servers timeSecond zk with ⟨res, zk1⟩
    rcases res with err | ⟨conn, connChan⟩
    · exact ⟨[.Connect p.em.ZKConfig.Servers false], by
        simp [Proc.record, LogEntry.isMismatch, electCount, childrenWCount]⟩
    · refine ⟨[.Connect p.em.ZKConfig.Servers true], ?_⟩
      by_cases ha : awaitConnected connChan = true <;>
        simp [ha, Proc.record, LogEntry.isMismatch, electCount, childrenWCount]
  · rename_i hcon
    refine ⟨[], ?_⟩
    simp only [Bool.not_eq_true, Bool.not_eq_true', isConnected] at hcon
    cases hk : p.em.ZKClientConn with
    | none => simp [hk] at hcon
    | some c => simp [electCount, childrenWCount, hk]

/-- What one call of `electMaster` does, whatever the service answers: it appends to the
log, enters `electMaster` once, installs no watch, keeps the configuration, and either
returns `nil` having sent one value after creates that all echoed their path, or returns
a failure having sent nothing. -/
theorem electMaster_spec {σ κ : Type} (ops : ZKOps σ κ) (p : Proc κ) (zk : σ) :
    ∃ l, (electMaster ops p zk).2.1.log = p.log ++ l ∧
      electCount l = 1 ∧ childrenWCount l = 0 ∧
      (electMaster ops p zk).2.1.em.ZKConfig = p.em.ZKConfig ∧
      (((electMaster ops p zk).1 = none ∧
          (∃ v, (electMaster ops p zk).2.1.em.IsMasterQ = p.em.IsMasterQ ++ [v]) ∧
          ∀ e ∈ l, e.isMismatch = false) ∨
        ((electMaster ops p zk).1 ≠ none ∧ (electMaster ops p zk).1 ≠ some .panic ∧
          (electMaster ops p zk).2.1.em.IsMasterQ = p.em.IsMasterQ)) := by
  obtain ⟨l0, hl0, hm0, he0, hw0, hq0, hc0, hk0, hn0⟩ := initConnection_spec ops (p.record .electMaster) zk
  unfold electMaster
  rcases hi : initConnection ops (p.record .electMaster) zk with ⟨ret, p1, zk1⟩
  rw [hi] at hl0 hq0 hc0 hk0 hn0
  simp only [Proc.record] at hl0 hq0 hc0 hk0 hn0
  have fin : ∀ (r : Option Fail × Proc κ × σ) (l' : List LogEntry),
      r.2.1.log = p1.log ++ l' → electCount l' = 0 → childrenWCount l' = 0 →
      r.2.1.em.ZKConfig = p1.em.ZKConfig →
      ((r.1 = none ∧ (∃ v, r.2.1.em.IsMasterQ = p1.em.IsMasterQ ++ [v]) ∧
          ∀ e ∈ l', e.isMismatch = false) ∨
        (r.1 ≠ none ∧ r.1 ≠ some .panic ∧ r.2.1.em.IsMasterQ = p1.em.IsMasterQ)) →
      ∃ l, r.2.1.log = p.log ++ l ∧ electCount l = 1 ∧ childrenWCount l = 0 ∧
        r.2.1.em.ZKConfig = p.em.ZKConfig ∧
        ((r.1 = none ∧ (∃ v, r.2.1.em.IsMasterQ = p.em.IsMasterQ ++ [v]) ∧
            ∀ e ∈ l, e.isMismatch = false) ∨
          (r.1 ≠ none ∧ r.1 ≠ some .panic ∧ r.2.1.em.IsMasterQ = p.em.IsMasterQ)) := by
    intro r l' hlog hec hwc hcfg hor
    refine ⟨LogEntry.electMaster :: (l0 ++ l'), ?_, ?_, ?_, hcfg.trans hc0, ?_⟩
    · rw [hlog, hl0]; simp
    · simp only [electCount, List.filter_cons, List.filter_append, List.length_append]
        at he0 hec ⊢
      simp [he0, hec]
    · simp only [childrenWCount, List.filter_cons, List.filter_append, List.length_append]
        at hw0 hwc ⊢
      simp [hw0, hwc]
    · rw [hq0] at hor
      rcases hor with ⟨h1, h2, h3⟩ | h
      · refine Or.inl ⟨h1, h2, ?_⟩
        intro e he
        simp only [List.mem_cons, List.mem_append] at he
        rcases he with rfl | he | he
        · rfl
        · exact hm0 e he
        · exact h3 e he
      · exact Or.inr h
  cases ret with
  | some f => refine fin _ [] ?_ rfl rfl ?_ ?_ <;> simp [hn0]
  | none =>
    simp only
    cases hconn : p1.em.ZKClientConn with
    | none => exact absurd hconn (hk0 rfl)
    | some conn =>
      simp only
      rcases hex : ops.Exists conn p1.em.ZKConfig.RootPath zk1 with ⟨rex, zk2⟩
      rcases rex with err | isExist
      · refine fin _ [.Exists p1.em.ZKConfig.RootPath (.error err)] ?_ rfl rfl ?_ ?_ <;>
          simp [Proc.record]
      · simp only
        cases isExist with
        | true =>
          simp only [Bool.not_true, Bool.false_eq_true, if_false]
          rcases hcm : ops.Create conn (p1.em.ZKConfig.RootPath ++
            (p1.record (.Exists p1.em.ZKConfig.RootPath (.ok true))).em.ZKConfig.MasterPath) []
            FlagEphemeral (WorldACL PermAll) zk2 with ⟨rcm, zk3⟩
          rcases rcm with err | path
          · refine fin _ [.Exists p1.em.ZKConfig.RootPath (.ok true),
              .Create (p1.em.ZKConfig.RootPath ++ p1.em.ZKConfig.MasterPath) FlagEphemeral
                (.error err)] ?_ rfl rfl ?_ ?_ <;>
              simp [Proc.record, Proc.send, LogEntry.isMismatch]
          · simp only
            by_cases hp : path = p1.em.ZKConfig.RootPath ++
                (p1.record (.Exists p1.em.ZKConfig.RootPath (.ok true))).em.ZKConfig.MasterPath
            · rw [if_pos hp]
              subst hp
              refine fin _ [.Exists p1.em.ZKConfig.RootPath (.ok true),
                .Create (p1.em.ZKConfig.RootPath ++ p1.em.ZKConfig.MasterPath) FlagEphemeral
                  (.ok (p1.em.ZKConfig.RootPath ++ p1.em.ZKConfig.MasterPath))]
                ?_ rfl rfl ?_ ?_ <;>
                simp [Proc.record, Proc.send, LogEntry.isMismatch]
            · rw [if_neg hp]
              refine fin _ [.Exists p1.em.ZKConfig.RootPath (.ok true),
                .Create (p1.em.ZKConfig.RootPath ++ p1.em.ZKConfig.MasterPath) FlagEphemeral
                  (.ok path)] ?_ rfl rfl ?_ ?_ <;>
                simp [Proc.record]
        | false =>
          simp only [Bool.not_false, if_true]
          rcases hcr : ops.Create conn p1.em.ZKConfig.RootPath [] 0 (WorldACL PermAll) zk2
            with ⟨rcr, zk3⟩
          rcases rcr with err | rpath
          · refine fin _ [.Exists p1.em.ZKConfig.RootPath (.ok false),
              .Create p1.em.ZKConfig.RootPath 0 (.error err)] ?_ rfl rfl ?_ ?_ <;>
              simp [Proc.record]
          · simp only
            by_cases hr : p1.em.ZKConfig.RootPath = rpath
            · simp only [hr, ne_eq, not_true_eq_false, if_false]
              rcases hcm : ops.Create conn (rpath ++ ((p1.record
                (.Exists rpath (.ok false))).record
                  (.Create rpath 0 (.ok rpath))).em.ZKConfig.MasterPath) []
                FlagEphemeral (WorldACL PermAll) zk3 with ⟨rcm, zk4⟩
              rcases rcm with err | path
              · refine fin _ [.Exists rpath (.ok false), .Create rpath 0 (.ok rpath),
                  .Create (rpath ++ p1.em.ZKConfig.MasterPath) FlagEphemeral (.error err)]
                  ?_ rfl rfl ?_ ?_ <;>
                  simp [Proc.record, Proc.send, LogEntry.isMismatch]
              · simp only
                by_cases hp : path = rpath ++ ((p1.record
                    (.Exists rpath (.ok false))).record
                      (.Create rpath 0 (.ok rpath))).em.ZKConfig.MasterPath
                · rw [if_pos hp]
                  subst hp
                  refine fin _ [.Exists rpath (.ok false), .Create rpath 0 (.ok rpath),
                    .Create (rpath ++ p1.em.ZKConfig.MasterPath) FlagEphemeral
                      (.ok (rpath ++ p1.em.ZKConfig.MasterPath))]
                    ?_ rfl rfl ?_ ?_ <;>
                    simp [Proc.record, Proc.send, LogEntry.isMismatch]
                · rw [if_neg hp]
                  refine fin _ [.Exists rpath (.ok false), .Create rpath 0 (.ok rpath),
                    .Create (rpath ++ p1.em.ZKConfig.MasterPath) FlagEphemeral (.ok path)]
                    ?_ rfl rfl ?_ ?_ <;>
                    simp [Proc.record]
            · rw [if_pos hr]
              refine fin _ [.Exists p1.em.ZKConfig.RootPath (.ok false),
                .Create p1.em.ZKConfig.RootPath 0 (.ok rpath)] ?_ rfl rfl ?_ ?_ <;>
                simp [Proc.record]

theorem watchLoop_spec {σ κ : Type} (ops : ZKOps σ κ) (feed : List (Arrival σ)) (p : Proc κ) (zk : σ) :
    (watchLoop ops p zk feed).1 = .waiting ∧
      childrenWCount (watchLoop ops p zk feed).2.1.log = childrenWCount p.log ∧
      (watchLoop ops p zk feed).2.1.em.ZKConfig = p.em.ZKConfig ∧
      electCount (watchLoop ops p zk feed).2.1.log =
        electCount p.log + (feed.filter fun a => a.event.Type_ = EventNodeDeleted).length := by
  induction feed generalizing p zk with
  | nil => simp [watchLoop]
  | cons a rest ih =>
    unfold watchLoop
    by_cases hd : a.event.Type_ = EventNodeDeleted
    · simp only [hd, if_true]
      obtain ⟨l, hl, hel, hwl, hcfg, hor⟩ := electMaster_spec ops p (a.env zk)
      rcases hr : electMaster ops p (a.env zk) with ⟨ret, p1, zk1⟩
      rw [hr] at hl hcfg hor
      simp only at hl hcfg hor
      have hnp : ret ≠ some .panic := by
        rcases hor with ⟨h, -⟩ | ⟨-, h, -⟩
        · rw [h]; simp
        · exact h
      obtain ⟨i1, i2, i3, i4⟩ := ih p1 zk1
      have hwc : childrenWCount p1.log = childrenWCount p.log := by
        rw [hl]
        simp only [childrenWCount, List.filter_append, List.length_append] at hwl ⊢
        omega
      have hec : electCount p1.log = electCount p.log + 1 := by
        rw [hl]
        simp only [electCount, List.filter_append, List.length_append] at hel ⊢
        omega
      have hgo : (match (ret, p1, zk1) with
          | (some Fail.panic, p, zk) => (LoopStatus.panicked, p, zk)
          | (_, p, zk) => watchLoop ops p zk rest) = watchLoop ops p1 zk1 rest := by
        rcases ret with _ | f
        · rfl
        · cases f with
          | err e => rfl
          | panic => exact absurd rfl hnp
      rw [hgo]
      refine ⟨i1, by rw [i2, hwc], by rw [i3, hcfg], ?_⟩
      rw [i4, hec]
      simp [hd]
      omega
    · simp only [hd, if_false]
      obtain ⟨i1, i2, i3, i4⟩ := ih p (a.env zk)
      refine ⟨i1, i2, i3, ?_⟩
      rw [i4]
      simp [hd]

/-- C1: whatever the coordination service answers to connect, exists and create, a call
of `electMaster` that returns `nil` has sent exactly one value on `IsMasterQ`, and a call
that does not return `nil` has sent none; it then returns an error, never panics. -/
theorem electMaster_sends_once_or_nothing {σ κ : Type} (ops : ZKOps σ κ) (p : Proc κ)
    (zk : σ) :
    ((electMaster ops p zk).1 = none →
      ∃ v, (electMaster ops p zk).2.1.em.IsMasterQ = p.em.IsMasterQ ++ [v]) ∧
    ((electMaster ops p zk).1 ≠ none →
      (∃ err, (electMaster ops p zk).1 = some (.err err)) ∧
      (electMaster ops p zk).2.1.em.IsMasterQ = p.em.IsMasterQ) := by
  obtain ⟨l, -, -, -, -, hor⟩ := electMaster_spec ops p zk
  rcases hor with ⟨h1, h2, -⟩ | ⟨h1, h2, h3⟩
  · exact ⟨fun _ => h2, fun h => absurd h1 h⟩
  · refine ⟨fun h => absurd h h1, fun _ => ⟨?_, h3⟩⟩
    rcases hr : (electMaster ops p zk).1 with _ | f
    · exact absurd hr h1
    · cases f with
      | err e => exact ⟨e, rfl⟩
      | panic => exact absurd hr h2

/-- Witness for C1: against the fake service the first election returns `nil` and sends
one value; against a service that cannot be reached it returns an error and sends none. -/
theorem electMaster_sends_once_or_nothing_witness :
    (electMaster fakeOps (newProc Nat defaultConfig) emptyFake).1 = none ∧
    (∃ v, (electMaster fakeOps (newProc Nat defaultConfig) emptyFake).2.1.em.IsMasterQ =
      [] ++ [v]) ∧
    (electMaster downOps (newProc Unit defaultConfig) ()).1 ≠ none ∧
    (electMaster downOps (newProc Unit defaultConfig) ()).2.1.em.IsMasterQ = [] :=
  ⟨by decide,
   (electMaster_sends_once_or_nothing fakeOps (newProc Nat defaultConfig) emptyFake).1
     (by decide),
   by decide,
   ((electMaster_sends_once_or_nothing downOps (newProc Unit defaultConfig) ()).2
     (by decide)).2⟩

/-- C7: in a call of `electMaster`, when a create (on the root or on the marker) succeeds
with a path other than the one asked for, the call returns an error and sends nothing. -/
theorem electMaster_path_mismatch_fails {σ κ : Type} (ops : ZKOps σ κ) (p : Proc κ) (zk : σ)
    (e : LogEntry) (he : e ∈ (electMaster ops p zk).2.1.log.drop p.log.length)
    (hm : e.isMismatch = true) :
    (∃ err, (electMaster ops p zk).1 = some (.err err)) ∧
      (electMaster ops p zk).2.1.em.IsMasterQ = p.em.IsMasterQ := by
  obtain ⟨l, hl, -, -, -, hor⟩ := electMaster_spec ops p zk
  rw [hl, List.drop_left] at he
  rcases hor with ⟨-, -, h3⟩ | ⟨h1, h2, h3⟩
  · rw [h3 e he] at hm
    cases hm
  · refine ⟨?_, h3⟩
    rcases hr : (electMaster ops p zk).1 with _ | f
    · exact absurd hr h1
    · cases f with
      | err e => exact ⟨e, rfl⟩
      | panic => exact absurd hr h2

/-- Witness for C7: the marker create is answered with `"/other"`. -/
theorem electMaster_path_mismatch_fails_witness :
    LogEntry.Create (defaultConfig.RootPath ++ defaultConfig.MasterPath) FlagEphemeral
        (.ok (str "/other")) ∈
      (electMaster wrongPathOps (newProc Unit defaultConfig) ()).2.1.log.drop
        (newProc Unit defaultConfig).log.length ∧
    ((∃ err, (electMaster wrongPathOps (newProc Unit defaultConfig) ()).1 = some (.err err)) ∧
      (electMaster wrongPathOps (newProc Unit defaultConfig) ()).2.1.em.IsMasterQ =
        (newProc Unit defaultConfig).em.IsMasterQ) :=
  have hlog : (electMaster wrongPathOps (newProc Unit defaultConfig) ()).2.1.log.drop
      (newProc Unit defaultConfig).log.length =
      [.electMaster, .Connect defaultConfig.Servers true,
        .Exists defaultConfig.RootPath (.ok true),
        .Create (defaultConfig.RootPath ++ defaultConfig.MasterPath) FlagEphemeral
          (.ok (str "/other"))] := rfl
  have hmem : LogEntry.Create (defaultConfig.RootPath ++ defaultConfig.MasterPath)
      FlagEphemeral (.ok (str "/other")) ∈
      (electMaster wrongPathOps (newProc Unit defaultConfig) ()).2.1.log.drop
        (newProc Unit defaultConfig).log.length := by
    rw [hlog]
    simp
  ⟨hmem,
   electMaster_path_mismatch_fails wrongPathOps (newProc Unit defaultConfig) ()
     (.Create (defaultConfig.RootPath ++ defaultConfig.MasterPath) FlagEphemeral
        (.ok (str "/other"))) hmem (by decide)⟩

/-- A process that has a connection issues one `ChildrenW` call in `WatchMaster`, whatever
the service answers and whatever events arrive. -/
theorem WatchMaster_childrenWCount {σ κ : Type} (ops : ZKOps σ κ) (conn : κ)
    (cfg : ZookeeperConfig) (q : List Bool) (log : List LogEntry) (zk : σ)
    (feed : List (Arrival σ)) :
    childrenWCount (WatchMaster ops ⟨⟨some conn, cfg, q⟩, log⟩ zk feed).2.1.log =
      childrenWCount log + 1 := by
  unfold WatchMaster
  simp only
  rcases hw : ops.ChildrenW conn (cfg.RootPath ++ cfg.MasterPath) zk with ⟨res, zk1⟩
  rcases res with err | children
  · simp [Proc.record, childrenWCount]
  · simp only
    rw [(watchLoop_spec ops feed _ zk1).2.1]
    simp [Proc.record, childrenWCount]

/-- C5, evaluated at the failing run: after the first election against the fake service,
`WatchMaster` is started, the marker is deleted and one `NodeDeleted` event arrives, which
the loop handles by one re-election. One event has been received and the process has
issued one `ChildrenW` call, not two: no watch was installed for the next cycle. When the
marker is then deleted a second time, all the loop receives on the spent channel is the
zero event; it enters no election, issues no `ChildrenW` call, sends nothing, and the
marker stays absent. -/
theorem WatchMaster_watch_not_reinstalled :
    childrenWCount
        (WatchMaster fakeOps (electMaster fakeOps (newProc Nat defaultConfig) emptyFake).2.1
          (electMaster fakeOps (newProc Nat defaultConfig) emptyFake).2.2
          [⟨FakeZK.delete (defaultConfig.RootPath ++ defaultConfig.MasterPath),
            ⟨EventNodeDeleted, StateConnected,
              defaultConfig.RootPath ++ defaultConfig.MasterPath⟩⟩]).2.1.log = 1 ∧
    electCount
        (WatchMaster fakeOps (electMaster fakeOps (newProc Nat defaultConfig) emptyFake).2.1
          (electMaster fakeOps (newProc Nat defaultConfig) emptyFake).2.2
          [⟨FakeZK.delete (defaultConfig.RootPath ++ defaultConfig.MasterPath),
            ⟨EventNodeDeleted, StateConnected,
              defaultConfig.RootPath ++ defaultConfig.MasterPath⟩⟩]).2.1.log = 2 ∧
    (1 : Nat) ≠ 1 + 1 ∧
    childrenWCount
        (WatchMaster fakeOps (electMaster fakeOps (newProc Nat defaultConfig) emptyFake).2.1
          (electMaster fakeOps (newProc Nat defaultConfig) emptyFake).2.2
          [⟨FakeZK.delete (defaultConfig.RootPath ++ defaultConfig.MasterPath),
            ⟨EventNodeDeleted, StateConnected,
              defaultConfig.RootPath ++ defaultConfig.MasterPath⟩⟩,
           ⟨FakeZK.delete (defaultConfig.RootPath ++ defaultConfig.MasterPath),
            ⟨0, 0, []⟩⟩]).2.1.log = 1 ∧
    electCount
        (WatchMaster fakeOps (electMaster fakeOps (newProc Nat defaultConfig) emptyFake).2.1
          (electMaster fakeOps (newProc Nat defaultConfig) emptyFake).2.2
          [⟨FakeZK.delete (defaultConfig.RootPath ++ defaultConfig.MasterPath),
            ⟨EventNodeDeleted, StateConnected,
              defaultConfig.RootPath ++ defaultConfig.MasterPath⟩⟩,
           ⟨FakeZK.delete (defaultConfig.RootPath ++ defaultConfig.MasterPath),
            ⟨0, 0, []⟩⟩]).2.1.log = 2 ∧
    (WatchMaster fakeOps (electMaster fakeOps (newProc Nat defaultConfig) emptyFake).2.1
          (electMaster fakeOps (newProc Nat defaultConfig) emptyFake).2.2
          [⟨FakeZK.delete (defaultConfig.RootPath ++ defaultConfig.MasterPath),
            ⟨EventNodeDeleted, StateConnected,
              defaultConfig.RootPath ++ defaultConfig.MasterPath⟩⟩,
           ⟨FakeZK.delete (defaultConfig.RootPath ++ defaultConfig.MasterPath),
            ⟨0, 0, []⟩⟩]).2.1.em.IsMasterQ = [true, true] ∧
    (WatchMaster fakeOps (electMaster fakeOps (newProc Nat defaultConfig) emptyFake).2.1
          (electMaster fakeOps (newProc Nat defaultConfig) emptyFake).2.2
          [⟨FakeZK.delete (defaultConfig.RootPath ++ defaultConfig.MasterPath),
            ⟨EventNodeDeleted, StateConnected,
              defaultConfig.RootPath ++ defaultConfig.MasterPath⟩⟩,
           ⟨FakeZK.delete (defaultConfig.RootPath ++ defaultConfig.MasterPath),
            ⟨0, 0, []⟩⟩]).2.2.has
        (defaultConfig.RootPath ++ defaultConfig.MasterPath) = false := by
  decide

/-! ## The election engine against the fake service -/

theorem append_ne_self_of_ne_nil {a b : GoString} (h : b ≠ []) : a ++ b ≠ a := by
  intro he
  have := congrArg List.length he
  simp only [List.length_append] at this
  cases b with
  | nil => exact h rfl
  | cons x xs => simp at this

theorem lookup_cons_ite (a k : GoString) (v : Node) (es : List (GoString × Node)) :
    List.lookup a ((k, v) :: es) = if a = k then some v else List.lookup a es := by
  by_cases h : a = k
  · simp [List.lookup, h]
  · have hb : (a == k) = false := by simpa using h
    simp [List.lookup, h, hb]

/-- C2: against a fake service with an empty namespace whose session connects, the first
`electMaster` call (no connection yet, as `GoElectingMaster` builds the manager, with a
non-empty `MasterPath`) returns `nil`, sends exactly `true`, and leaves the service
holding the root node, permanent, at `RootPath` and the marker node, ephemeral and owned
by the new session, at `RootPath + MasterPath`, and nothing else. -/
theorem first_election_on_empty_namespace (cfg : ZookeeperConfig) (q : List Bool)
    (log : List LogEntry) (zk : FakeZK) (hn : zk.nodes = []) (hc : zk.connects)
    (hm : cfg.MasterPath ≠ []) :
    (electMaster fakeOps ⟨⟨none, cfg, q⟩, log⟩ zk).1 = none ∧
    (electMaster fakeOps ⟨⟨none, cfg, q⟩, log⟩ zk).2.1.em.IsMasterQ = q ++ [true] ∧
    (electMaster fakeOps ⟨⟨none, cfg, q⟩, log⟩ zk).2.2.lookup cfg.RootPath =
      some ⟨[], none, WorldACL PermAll⟩ ∧
    (electMaster fakeOps ⟨⟨none, cfg, q⟩, log⟩ zk).2.2.lookup (cfg.RootPath ++ cfg.MasterPath) =
      some ⟨[], some zk.sessions.length, WorldACL PermAll⟩ ∧
    (electMaster fakeOps ⟨⟨none, cfg, q⟩, log⟩ zk).2.2.nodes.length = 2 := by
  obtain ⟨hc1, hc2⟩ := hc
  have hne := append_ne_self_of_ne_nil (a := cfg.RootPath) hm
  simp [electMaster, initConnection, isConnected, fakeOps, Proc.record, Proc.send, hc1, hc2,
    FakeZK.has, FakeZK.lookup, FakeZK.insert, hn, lookup_cons_ite, hne, hne.symm, FlagEphemeral]

/-- Witness for C2 at the default configuration. -/
theorem first_election_on_empty_namespace_witness :
    emptyFake.nodes = [] ∧ emptyFake.connects ∧ defaultConfig.MasterPath ≠ [] ∧
    (electMaster fakeOps ⟨⟨none, defaultConfig, []⟩, []⟩ emptyFake).2.1.em.IsMasterQ =
      [] ++ [true] :=
  ⟨rfl, by decide, by decide,
   (first_election_on_empty_namespace defaultConfig [] [] emptyFake rfl (by decide)
     (by decide)).2.1⟩

/-- Through `GoElectingMaster`: any non-empty target, against a fake service with an empty
namespace that connects, starts the loop after an election that sent `true`. -/
theorem GoElectingMaster_first_election (zkAddr : GoString) (q : List Bool) (zk : FakeZK)
    (ha : zkAddr ≠ []) (hn : zk.nodes = []) (hc : zk.connects) :
    ∃ p zk1, GoElectingMaster fakeOps zkAddr q zk = .started p zk1 ∧
      p.em.IsMasterQ = q ++ [true] := by
  unfold GoElectingMaster
  rw [parseZkAddr_eq zkAddr ha]
  simp only
  obtain ⟨cfg, hcfg⟩ : ∃ cfg : ZookeeperConfig,
      { Servers := (beforeSlash zkAddr).splitOn comma,
        RootPath := if beforeSlash (afterSlash zkAddr) ≠ [] then
          slash :: beforeSlash (afterSlash zkAddr) else DefaultRootPath,
        MasterPath := DefaultMasterPath } = cfg := ⟨_, rfl⟩
  rw [hcfg]
  have hm : cfg.MasterPath ≠ [] := by
    rw [← hcfg]
    show DefaultMasterPath ≠ []
    decide
  obtain ⟨h1, h2, -⟩ := first_election_on_empty_namespace cfg q [] zk hn hc hm
  rcases hr : electMaster fakeOps ⟨⟨none, cfg, q⟩, []⟩ zk with ⟨ret, p1, zk1⟩
  rw [hr] at h1 h2
  simp only at h1 h2
  subst h1
  exact ⟨p1, zk1, rfl, h2⟩

theorem isConnected_fake {p : Proc Nat} {zk : FakeZK} (h : isConnected fakeOps p zk = true) :
    ∃ c, p.em.ZKClientConn = some c ∧ fakeOps.State c zk = StateConnected := by
  unfold isConnected at h
  cases hk : p.em.ZKClientConn with
  | none => simp [hk] at h
  | some c =>
    refine ⟨c, rfl, ?_⟩
    rw [hk] at h
    by_contra hne
    simp only [ne_eq, hne, not_false_eq_true, if_true] at h
    cases h

/-- C3: against a fake service whose session is connected and whose marker node exists,
`electMaster` returns `nil`, sends exactly `false`, and leaves the marker node as it was:
still present, with the same owner, data and access control list. -/
theorem election_with_marker_present (p : Proc Nat) (zk : FakeZK)
    (hc : isConnected fakeOps p zk = true)
    (hm : zk.has (p.em.ZKConfig.RootPath ++ p.em.ZKConfig.MasterPath) = true) :
    (electMaster fakeOps p zk).1 = none ∧
    (electMaster fakeOps p zk).2.1.em.IsMasterQ = p.em.IsMasterQ ++ [false] ∧
    (electMaster fakeOps p zk).2.2.lookup (p.em.ZKConfig.RootPath ++ p.em.ZKConfig.MasterPath) =
      zk.lookup (p.em.ZKConfig.RootPath ++ p.em.ZKConfig.MasterPath) ∧
    (electMaster fakeOps p zk).2.2.has (p.em.ZKConfig.RootPath ++ p.em.ZKConfig.MasterPath) =
      true := by
  obtain ⟨c, hk, hs⟩ := isConnected_fake hc
  have hi : initConnection fakeOps (p.record .electMaster) zk =
      (none, p.record .electMaster, zk) := by
    have : isConnected fakeOps (p.record .electMaster) zk = true := hc
    simp [initConnection, this]
  unfold electMaster
  rw [hi]
  by_cases hr : zk.has p.em.ZKConfig.RootPath = true
  · simp [Proc.record, Proc.send, hk, fakeOps, hr, hm]
  · have hne : p.em.ZKConfig.RootPath ++ p.em.ZKConfig.MasterPath ≠ p.em.ZKConfig.RootPath := by
      intro he
      rw [he] at hm
      exact hr hm
    have hm2 : (List.lookup (p.em.ZKConfig.RootPath ++ p.em.ZKConfig.MasterPath)
        zk.nodes).isSome = true := hm
    have hr2 : (List.lookup p.em.ZKConfig.RootPath zk.nodes).isSome = false := by
      cases hx : (List.lookup p.em.ZKConfig.RootPath zk.nodes).isSome with
      | false => rfl
      | true => exact absurd hx hr
    simp [Proc.record, Proc.send, hk, fakeOps, FakeZK.has, FakeZK.lookup, FakeZK.insert,
      lookup_cons_ite, hne, hm2, hr2]

/-- Witness for C3: the state the first election leaves behind, and a second election by
the same process. -/
theorem election_with_marker_present_witness :
    (electMaster fakeOps
        (electMaster fakeOps (newProc Nat defaultConfig) emptyFake).2.1
        (electMaster fakeOps (newProc Nat defaultConfig) emptyFake).2.2).2.1.em.IsMasterQ =
      (electMaster fakeOps (newProc Nat defaultConfig) emptyFake).2.1.em.IsMasterQ ++ [false] :=
  (election_with_marker_present
    (electMaster fakeOps (newProc Nat defaultConfig) emptyFake).2.1
    (electMaster fakeOps (newProc Nat defaultConfig) emptyFake).2.2
    (by decide) (by decide)).2.1

theorem initConnection_of_connected {σ κ : Type} (ops : ZKOps σ κ) (p : Proc κ) (zk : σ)
    (hc : isConnected ops p zk = true) : initConnection ops p zk = (none, p, zk) := by
  simp [initConnection, hc]

theorem fake_exists (c : Nat) (path : GoString) (zk : FakeZK) :
    fakeOps.Exists c path zk = (.ok (zk.has path), zk) := rfl

theorem fake_create_of_has {path : GoString} {zk : FakeZK} (h : zk.has path = true) (c : Nat)
    (d : List Byte) (f : Int) (a : List ACL) :
    fakeOps.Create c path d f a zk = (.error ErrNodeExists, zk) := by
  simp [fakeOps, h]

theorem fake_create_of_not_has {path : GoString} {zk : FakeZK} (h : zk.has path = false)
    (c : Nat) (d : List Byte) (f : Int) (a : List ACL) :
    fakeOps.Create c path d f a zk =
      (.ok path, zk.insert path
        { data := d, ephemeralOwner := if f = FlagEphemeral then some c else none,
          acl := a }) := by
  simp [fakeOps, h]

theorem lookup_insert (zk : FakeZK) (k a : GoString) (n : Node) :
    (zk.insert k n).lookup a = if a = k then some n else zk.lookup a := by
  simp [FakeZK.insert, FakeZK.lookup, lookup_cons_ite]

theorem has_insert (zk : FakeZK) (k a : GoString) (n : Node) :
    (zk.insert k n).has a = (decide (a = k) || zk.has a) := by
  unfold FakeZK.has
  rw [lookup_insert]
  by_cases h : a = k <;> simp [h]

/-- Against the fake service a connected process always gets `nil` from `electMaster`. -/
theorem electMaster_fake_connected (p : Proc Nat) (zk : FakeZK)
    (hc : isConnected fakeOps p zk = true) : (electMaster fakeOps p zk).1 = none := by
  obtain ⟨c, hk, -⟩ := isConnected_fake hc
  have hi := initConnection_of_connected fakeOps (p.record .electMaster) zk hc
  have hk' : (p.record .electMaster).em.ZKClientConn = some c := hk
  unfold electMaster
  rw [hi]
  simp only [hk', fake_exists]
  cases hr : zk.has (p.record .electMaster).em.ZKConfig.RootPath with
  | true =>
    simp only [Bool.not_true, Bool.false_eq_true, if_false]
    cases hm : zk.has ((p.record .electMaster).em.ZKConfig.RootPath ++
        ((p.record .electMaster).record (.Exists
          (p.record .electMaster).em.ZKConfig.RootPath (.ok true))).em.ZKConfig.MasterPath) with
    | true => simp only [fake_create_of_has hm]
    | false => simp only [fake_create_of_not_has hm, if_true]
  | false =>
    simp only [Bool.not_false, if_true, fake_create_of_not_has hr, ne_eq, not_true_eq_false,
      if_false]
    generalize hz : zk.insert (p.record .electMaster).em.ZKConfig.RootPath _ = zk1
    cases hm : zk1.has ((p.record .electMaster).em.ZKConfig.RootPath ++
        (((p.record .electMaster).record (.Exists
          (p.record .electMaster).em.ZKConfig.RootPath (.ok false))).record
            (.Create (p.record .electMaster).em.ZKConfig.RootPath 0
              (.ok (p.record .electMaster).em.ZKConfig.RootPath))).em.ZKConfig.MasterPath) with
    | true => simp only [fake_create_of_has hm]
    | false => simp only [fake_create_of_not_has hm, if_true]

theorem isConnected_delete (p : Proc Nat) (zk : FakeZK) (path : GoString) :
    isConnected fakeOps p (FakeZK.delete path zk) = isConnected fakeOps p zk := rfl

/-- C6: against a fake service whose session is connected and whose marker node exists
when the watch is installed, when the marker node is then deleted and `WatchMaster`
receives one `NodeDeleted` event, the loop enters `electMaster` exactly once and exactly
one new value is sent on the result channel; the loop is then waiting for the next event. -/
theorem reelection_on_node_deleted (p : Proc Nat) (zk : FakeZK) (ev : Event)
    (hc : isConnected fakeOps p zk = true)
    (hm : zk.has (p.em.ZKConfig.RootPath ++ p.em.ZKConfig.MasterPath) = true)
    (hd : ev.Type_ = EventNodeDeleted) :
    (WatchMaster fakeOps p zk
      [⟨FakeZK.delete (p.em.ZKConfig.RootPath ++ p.em.ZKConfig.MasterPath), ev⟩]).1 =
        .waiting ∧
    electCount (WatchMaster fakeOps p zk
      [⟨FakeZK.delete (p.em.ZKConfig.RootPath ++ p.em.ZKConfig.MasterPath), ev⟩]).2.1.log =
        electCount p.log + 1 ∧
    ∃ v, (WatchMaster fakeOps p zk
      [⟨FakeZK.delete (p.em.ZKConfig.RootPath ++ p.em.ZKConfig.MasterPath), ev⟩]).2.1.em.IsMasterQ
        = p.em.IsMasterQ ++ [v] := by
  obtain ⟨c, hk, -⟩ := isConnected_fake hc
  have hw : fakeOps.ChildrenW c (p.em.ZKConfig.RootPath ++ p.em.ZKConfig.MasterPath) zk =
      (.ok (zk.nodes.filterMap fun n =>
        childName (p.em.ZKConfig.RootPath ++ p.em.ZKConfig.MasterPath) n.1), zk) := by
    simp [fakeOps, hm]
  unfold WatchMaster
  simp only [hk, hw]
  generalize hp' : p.record (.ChildrenW (p.em.ZKConfig.RootPath ++ p.em.ZKConfig.MasterPath)
    true) = p'
  have hc' : isConnected fakeOps p'
      (FakeZK.delete (p.em.ZKConfig.RootPath ++ p.em.ZKConfig.MasterPath) zk) = true := by
    rw [← hp']
    exact hc
  have hq' : p'.em.IsMasterQ = p.em.IsMasterQ := by rw [← hp']; rfl
  have hl' : electCount p'.log = electCount p.log := by
    rw [← hp']
    simp [Proc.record, electCount]
  have hnil := electMaster_fake_connected p' _ hc'
  obtain ⟨l, hl, hel, -, -, hor⟩ := electMaster_spec fakeOps p'
    (FakeZK.delete (p.em.ZKConfig.RootPath ++ p.em.ZKConfig.MasterPath) zk)
  rcases hor with ⟨-, ⟨v, hv⟩, -⟩ | ⟨h, -⟩
  · rcases hr : electMaster fakeOps p'
      (FakeZK.delete (p.em.ZKConfig.RootPath ++ p.em.ZKConfig.MasterPath) zk) with ⟨ret, p1, zk1⟩
    rw [hr] at hnil hl hv
    simp only at hnil hl hv
    subst hnil
    simp only [watchLoop, hd, if_true, hr]
    refine ⟨trivial, ?_, v, by rw [hv, hq']⟩
    rw [hl, ← hl']
    simp only [electCount, List.filter_append, List.length_append] at hel ⊢
    omega
  · exact absurd hnil h

/-- Witness for C6: the first election, then the marker is deleted and the event arrives. -/
theorem reelection_on_node_deleted_witness :
    ∃ v, (WatchMaster fakeOps
        (electMaster fakeOps (newProc Nat defaultConfig) emptyFake).2.1
        (electMaster fakeOps (newProc Nat defaultConfig) emptyFake).2.2
        [⟨FakeZK.delete (defaultConfig.RootPath ++ defaultConfig.MasterPath),
          ⟨EventNodeDeleted, StateConnected,
            defaultConfig.RootPath ++ defaultConfig.MasterPath⟩⟩]).2.1.em.IsMasterQ =
      [true] ++ [v] :=
  (reelection_on_node_deleted
    (electMaster fakeOps (newProc Nat defaultConfig) emptyFake).2.1
    (electMaster fakeOps (newProc Nat defaultConfig) emptyFake).2.2
    ⟨EventNodeDeleted, StateConnected, defaultConfig.RootPath ++ defaultConfig.MasterPath⟩
    (by decide) (by decide) rfl).2.2

/-! ## `electMaster` and its small-step form -/

/-- Four steps of the small-step form, taken alone, are one call of `electMaster`. -/
theorem electMaster_eq_run {σ κ : Type} (ops : ZKOps σ κ) (p : Proc κ) (zk : σ) :
    electRun ops 4 ⟨p, .init⟩ zk =
      (⟨(electMaster ops p zk).2.1, .done (electMaster ops p zk).1⟩,
        (electMaster ops p zk).2.2) := by
  simp only [electRun, electMaster]
  rcases hi : initConnection ops (p.record .electMaster) zk with ⟨ret, p1, zk1⟩
  have hs1 : electStep ops ⟨p, .init⟩ zk =
      (⟨p1, match ret with | some f => .done (some f) | none => .checkRoot⟩, zk1) := by
    simp only [electStep, hi]
    cases ret <;> rfl
  rw [hs1]
  cases ret with
  | some f => simp [electStep]
  | none =>
    cases hconn : p1.em.ZKClientConn with
    | none => simp [electStep, hconn]
    | some conn =>
      rcases hex : ops.Exists conn p1.em.ZKConfig.RootPath zk1 with ⟨rex, zk2⟩
      rcases rex with err | isExist
      · simp [electStep, hconn, hex]
      · cases isExist with
        | true =>
          rcases hcm : ops.Create conn (p1.em.ZKConfig.RootPath ++ p1.em.ZKConfig.MasterPath) []
            FlagEphemeral (WorldACL PermAll) zk2 with ⟨rcm, zk3⟩
          rcases rcm with err | path
          · simp [electStep, hconn, hex, hcm, Proc.record, Proc.send]
          · by_cases hp : path = p1.em.ZKConfig.RootPath ++ p1.em.ZKConfig.MasterPath
            · simp [electStep, hconn, hex, hcm, Proc.record, Proc.send, hp]
            · simp [electStep, hconn, hex, hcm, Proc.record, Proc.send, hp]
        | false =>
          rcases hcr : ops.Create conn p1.em.ZKConfig.RootPath [] 0 (WorldACL PermAll) zk2
            with ⟨rcr, zk3⟩
          rcases rcr with err | path
          · simp [electStep, hconn, hex, hcr, Proc.record, Proc.send]
          · by_cases hr : p1.em.ZKConfig.RootPath = path
            · rcases hcm : ops.Create conn (p1.em.ZKConfig.RootPath ++ p1.em.ZKConfig.MasterPath)
                [] FlagEphemeral (WorldACL PermAll) zk3 with ⟨rcm, zk4⟩
              rcases rcm with err | path2
              · simp [electStep, hconn, hex, hcr, hcm, Proc.record, Proc.send, ← hr]
              · by_cases hp : path2 = p1.em.ZKConfig.RootPath ++ p1.em.ZKConfig.MasterPath
                · simp [electStep, hconn, hex, hcr, hcm, Proc.record, Proc.send, hp, ← hr]
                · simp [electStep, hconn, hex, hcr, hcm, Proc.record, Proc.send, hp, ← hr]
            · simp [electStep, hconn, hex, hcr, Proc.record, Proc.send, hr]

/-! ## Two processes racing against the fake service -/

theorem View.ok_step (b : Bool) (v : View) (h : v.ok = true) : (v.step b).ok = true := by
  rcases v with ⟨a1, a2, r, m⟩
  revert h
  cases b <;> cases a1 <;> cases a2 <;> cases r <;> cases m <;> decide

theorem View.decided_of_ok (v : View) (h : v.ok = true) (h1 : v.first.finished = true)
    (h2 : v.second.finished = true) : v.decided = true := by
  rcases v with ⟨a1, a2, r, m⟩
  revert h h1 h2
  cases a1 <;> cases a2 <;> cases r <;> cases m <;> decide

theorem View.rank_step_first (v : View) :
    min 4 (v.first.rank + 1) ≤ (v.step true).first.rank ∧
      (v.step true).second = v.second := by
  rcases v with ⟨a1, a2, r, m⟩
  cases a1 <;> cases r <;> cases m <;> exact ⟨by simp [View.step, stageStep, Stage.rank], rfl⟩

theorem View.rank_step_second (v : View) :
    min 4 (v.second.rank + 1) ≤ (v.step false).second.rank ∧
      (v.step false).first = v.first := by
  rcases v with ⟨a1, a2, r, m⟩
  cases a2 <;> cases r <;> cases m <;> exact ⟨by simp [View.step, stageStep, Stage.rank], rfl⟩

theorem Stage.finished_of_rank {a : Stage} (h : 4 ≤ a.rank) (ho : a ≠ .other) :
    a.finished = true := by
  cases a <;> first | rfl | (exact absurd rfl ho) | (simp [Stage.rank] at h)

theorem has_of_nodes_eq {zk zk' : FakeZK} (h : zk'.nodes = zk.nodes) (a : GoString) :
    zk'.has a = zk.has a := by
  simp [FakeZK.has, FakeZK.lookup, h]

/-- Against a fake service that connects, `initConnection` returns `nil` with a connection
in place and leaves the namespace as it was. -/
theorem initConnection_fake (p : Proc Nat) (zk : FakeZK) (hc : zk.connects) :
    (initConnection fakeOps p zk).1 = none ∧
      (initConnection fakeOps p zk).2.1.em.ZKClientConn.isSome = true ∧
      (initConnection fakeOps p zk).2.1.em.IsMasterQ = p.em.IsMasterQ ∧
      (initConnection fakeOps p zk).2.1.em.ZKConfig = p.em.ZKConfig ∧
      (initConnection fakeOps p zk).2.2.nodes = zk.nodes ∧
      (initConnection fakeOps p zk).2.2.connects := by
  obtain ⟨hc1, hc2⟩ := hc
  by_cases hcon : isConnected fakeOps p zk = true
  · obtain ⟨c, hk, -⟩ := isConnected_fake hcon
    rw [initConnection_of_connected fakeOps p zk hcon]
    exact ⟨rfl, by simp [hk], rfl, rfl, rfl, hc1, hc2⟩
  · simp only [Bool.not_eq_true] at hcon
    unfold initConnection
    simp only [hcon, Bool.not_false, if_true]
    simp [fakeOps, hc1, hc2, Proc.record, FakeZK.connects]

/-- One step of a process against the fake service is one step of its stage. -/
theorem electStep_stage (cfg : ZookeeperConfig) (q : List Bool) (t : Thread Nat) (zk : FakeZK)
    (hcfg : t.proc.em.ZKConfig = cfg) (hm : cfg.MasterPath ≠ []) (hc : zk.connects)
    (ha : stageOf q t ≠ .other) :
    (electStep fakeOps t zk).1.proc.em.ZKConfig = cfg ∧ (electStep fakeOps t zk).2.connects ∧
      (stageOf q (electStep fakeOps t zk).1, (electStep fakeOps t zk).2.has cfg.RootPath,
          (electStep fakeOps t zk).2.has (cfg.RootPath ++ cfg.MasterPath)) =
        stageStep (stageOf q t) (zk.has cfg.RootPath) (zk.has (cfg.RootPath ++ cfg.MasterPath)) := by
  have hne := append_ne_self_of_ne_nil (a := cfg.RootPath) hm
  rcases t with ⟨p, pc⟩
  simp only at hcfg
  cases pc with
  | init =>
    obtain ⟨i1, i2, i3, i4, i5, i6⟩ := initConnection_fake (p.record .electMaster) zk hc
    rcases hi : initConnection fakeOps (p.record .electMaster) zk with ⟨ret, p1, zk1⟩
    rw [hi] at i1 i2 i3 i4 i5 i6
    simp only at i1 i2 i3 i4 i5 i6
    subst i1
    have hq : p.em.IsMasterQ = q := by
      by_contra hq
      simp [stageOf, hq] at ha
    have hq1 : p1.em.IsMasterQ = q := by rw [i3]; exact hq
    simp only [electStep, hi]
    refine ⟨by rw [i4]; exact hcfg, i6, ?_⟩
    simp [stageOf, hq, hq1, i2, stageStep, has_of_nodes_eq i5]
  | checkRoot =>
    have hq : p.em.IsMasterQ = q ∧ p.em.ZKClientConn.isSome = true := by
      by_contra hq
      simp [stageOf, hq] at ha
    obtain ⟨hq, hk⟩ := hq
    obtain ⟨c, hc'⟩ := Option.isSome_iff_exists.mp hk
    simp only [electStep, hc', fake_exists, hcfg]
    refine ⟨hcfg, hc, ?_⟩
    cases hr : zk.has cfg.RootPath <;> simp [stageOf, stageStep, Proc.record, hq, hc']
  | createRoot =>
    have hq : p.em.IsMasterQ = q ∧ p.em.ZKClientConn.isSome = true := by
      by_contra hq
      simp [stageOf, hq] at ha
    obtain ⟨hq, hk⟩ := hq
    obtain ⟨c, hc'⟩ := Option.isSome_iff_exists.mp hk
    simp only [electStep, hc', hcfg]
    cases hr : zk.has cfg.RootPath with
    | true =>
      simp only [fake_create_of_has hr]
      refine ⟨hcfg, hc, ?_⟩
      simp [stageOf, stageStep, Proc.record, hq, hc', hr]
    | false =>
      simp only [fake_create_of_not_has hr]
      refine ⟨hcfg, hc, ?_⟩
      simp [stageOf, stageStep, Proc.record, hq, hc', hr, has_insert, hne]
  | createMaster =>
    have hq : p.em.IsMasterQ = q ∧ p.em.ZKClientConn.isSome = true := by
      by_contra hq
      simp [stageOf, hq] at ha
    obtain ⟨hq, hk⟩ := hq
    obtain ⟨c, hc'⟩ := Option.isSome_iff_exists.mp hk
    simp only [electStep, hc', hcfg]
    cases hmk : zk.has (cfg.RootPath ++ cfg.MasterPath) with
    | true =>
      simp only [fake_create_of_has hmk]
      refine ⟨hcfg, hc, ?_⟩
      simp [stageOf, stageStep, Proc.record, Proc.send, hq, hc', hmk]
    | false =>
      simp only [fake_create_of_not_has hmk]
      refine ⟨hcfg, hc, ?_⟩
      simp [stageOf, stageStep, Proc.record, Proc.send, hq, hc', hmk, has_insert, hne.symm]
  | done ret =>
    refine ⟨hcfg, hc, ?_⟩
    simp only [electStep]
    cases ret with
    | none =>
      by_cases h1 : p.em.IsMasterQ = q ++ [true]
      · simp [stageOf, h1, stageStep]
      · by_cases h2 : p.em.IsMasterQ = q ++ [false]
        · simp [stageOf, h2, stageStep]
        · simp [stageOf, h1, h2] at ha
    | some f =>
      by_cases h1 : p.em.IsMasterQ = q ∧ f = .err (.zk ErrNodeExists)
      · simp [stageOf, h1, stageStep]
      · simp [stageOf, h1] at ha
theorem View.not_other_of_ok {v : View} (h : v.ok = true) :
    v.first ≠ .other ∧ v.second ≠ .other := by
  rcases v with ⟨a1, a2, r, m⟩
  revert h
  cases a1 <;> cases a2 <;> cases r <;> cases m <;> decide

theorem stageOf_leader {q : List Bool} {t : Thread Nat} (h : stageOf q t = .leader) :
    t.isLeader q := by
  rcases t with ⟨p, pc⟩
  unfold stageOf at h
  rcases pc with _ | _ | _ | _ | ret
  all_goals try (simp only at h; split at h <;> cases h)
  rcases ret with _ | f
  · simp only at h
    split at h
    · rename_i hq; exact ⟨rfl, hq⟩
    · split at h <;> cases h
  · simp only at h
    split at h <;> cases h

theorem stageOf_standby {q : List Bool} {t : Thread Nat} (h : stageOf q t = .standby) :
    t.isStandby q := by
  rcases t with ⟨p, pc⟩
  unfold stageOf at h
  rcases pc with _ | _ | _ | _ | ret
  all_goals try (simp only at h; split at h <;> cases h)
  rcases ret with _ | f
  · simp only at h
    split at h
    · cases h
    · split at h
      · rename_i hq; exact ⟨rfl, hq⟩
      · cases h
  · simp only at h
    split at h <;> cases h

theorem stageOf_rootLost {q : List Bool} {t : Thread Nat} (h : stageOf q t = .rootLost) :
    t.lostRoot q := by
  rcases t with ⟨p, pc⟩
  unfold stageOf at h
  rcases pc with _ | _ | _ | _ | ret
  all_goals try (simp only at h; split at h <;> cases h)
  rcases ret with _ | f
  · simp only at h
    split at h
    · cases h
    · split at h <;> cases h
  · simp only at h
    split at h
    · rename_i hq
      obtain ⟨hq1, hq2⟩ := hq
      subst hq2
      exact ⟨rfl, hq1⟩
    · cases h

theorem stageOf_finished_iff {q : List Bool} {t : Thread Nat} (ho : stageOf q t ≠ .other) :
    (stageOf q t).finished = true ↔ ∃ e, t.pc = .done e := by
  rcases t with ⟨p, pc⟩
  unfold stageOf at ho ⊢
  rcases pc with _ | _ | _ | _ | ret
  · simp only at ho ⊢
    split <;> simp_all [Stage.finished]
  · simp only at ho ⊢
    split <;> simp_all [Stage.finished]
  · simp only at ho ⊢
    split <;> simp_all [Stage.finished]
  · simp only at ho ⊢
    split <;> simp_all [Stage.finished]
  · rcases ret with _ | f
    · simp only at ho ⊢
      split
      · exact ⟨fun _ => ⟨_, rfl⟩, fun _ => rfl⟩
      · split
        · exact ⟨fun _ => ⟨_, rfl⟩, fun _ => rfl⟩
        · simp_all
    · simp only at ho ⊢
      split
      · exact ⟨fun _ => ⟨_, rfl⟩, fun _ => rfl⟩
      · simp_all

/-- The finite view follows the two processes along any schedule, and keeps its
invariant; a process scheduled often enough reaches rank four. -/
theorem runSchedule_view (cfg : ZookeeperConfig) (q1 q2 : List Bool) (hm : cfg.MasterPath ≠ [])
    (sched : List Bool) (s : Pair FakeZK Nat)
    (h1 : s.first.proc.em.ZKConfig = cfg) (h2 : s.second.proc.em.ZKConfig = cfg)
    (hc : s.zk.connects) (hok : (viewOf cfg q1 q2 s).ok = true) :
    (viewOf cfg q1 q2 (runSchedule fakeOps sched s)).ok = true ∧
      (4 ≤ (stageOf q1 s.first).rank + sched.count true →
        4 ≤ (stageOf q1 (runSchedule fakeOps sched s).first).rank) ∧
      (4 ≤ (stageOf q2 s.second).rank + sched.count false →
        4 ≤ (stageOf q2 (runSchedule fakeOps sched s).second).rank) := by
  induction sched generalizing s with
  | nil => exact ⟨hok, by simp [runSchedule], by simp [runSchedule]⟩
  | cons b rest ih =>
    obtain ⟨ho1, ho2⟩ := View.not_other_of_ok hok
    cases b with
    | true =>
      obtain ⟨e1, e2, e3⟩ := electStep_stage cfg q1 s.first s.zk h1 hm hc ho1
      obtain ⟨s1, hs1⟩ : ∃ s1 : Pair FakeZK Nat,
          { s with first := (electStep fakeOps s.first s.zk).1,
                   zk := (electStep fakeOps s.first s.zk).2 } = s1 := ⟨_, rfl⟩
      have hv : viewOf cfg q1 q2 s1 = (viewOf cfg q1 q2 s).step true := by
        have e3a := congrArg Prod.fst e3
        have e3b := congrArg (fun x => x.2.1) e3
        have e3c := congrArg (fun x => x.2.2) e3
        simp only at e3a e3b e3c
        rw [← hs1]
        simp only [viewOf, View.step, if_true]
        rw [e3a, e3b, e3c]
      have hf1 : s1.first.proc.em.ZKConfig = cfg := by rw [← hs1]; exact e1
      have hf2 : s1.second.proc.em.ZKConfig = cfg := by rw [← hs1]; exact h2
      have hf3 : s1.zk.connects := by rw [← hs1]; exact e2
      obtain ⟨i1, i2, i3⟩ := ih s1 hf1 hf2 hf3 (by rw [hv]; exact View.ok_step true _ hok)
      have hr := View.rank_step_first (viewOf cfg q1 q2 s)
      rw [← hv] at hr
      simp only [viewOf] at hr
      simp only [runSchedule, hs1]
      refine ⟨i1, fun hh => i2 ?_, fun hh => i3 ?_⟩
      · simp only [List.count_cons_self] at hh
        have := hr.1
        omega
      · rw [hr.2]
        simpa using hh
    | false =>
      obtain ⟨e1, e2, e3⟩ := electStep_stage cfg q2 s.second s.zk h2 hm hc ho2
      obtain ⟨s1, hs1⟩ : ∃ s1 : Pair FakeZK Nat,
          { s with second := (electStep fakeOps s.second s.zk).1,
                   zk := (electStep fakeOps s.second s.zk).2 } = s1 := ⟨_, rfl⟩
      have hv : viewOf cfg q1 q2 s1 = (viewOf cfg q1 q2 s).step false := by
        have e3a := congrArg Prod.fst e3
        have e3b := congrArg (fun x => x.2.1) e3
        have e3c := congrArg (fun x => x.2.2) e3
        simp only at e3a e3b e3c
        rw [← hs1]
        simp only [viewOf, View.step, Bool.false_eq_true, if_false]
        rw [e3a, e3b, e3c]
      have hf1 : s1.first.proc.em.ZKConfig = cfg := by rw [← hs1]; exact h1
      have hf2 : s1.second.proc.em.ZKConfig = cfg := by rw [← hs1]; exact e1
      have hf3 : s1.zk.connects := by rw [← hs1]; exact e2
      obtain ⟨i1, i2, i3⟩ := ih s1 hf1 hf2 hf3 (by rw [hv]; exact View.ok_step false _ hok)
      have hr := View.rank_step_second (viewOf cfg q1 q2 s)
      rw [← hv] at hr
      simp only [viewOf] at hr
      simp only [runSchedule, hs1]
      refine ⟨i1, fun hh => i2 ?_, fun hh => i3 ?_⟩
      · rw [hr.2]
        simpa using hh
      · simp only [List.count_cons_self] at hh
        have := hr.1
        omega
/-- C4 as stated fails: from an empty namespace, when both processes see the root absent
before either creates it, the first creates the root and becomes leader while the second
gets the node-exists error from its root create, returns it and sends nothing. -/
theorem race_for_root_counterexample :
    (runSchedule fakeOps [true, false, true, false, true, false, true]
      (startPair defaultConfig none none [] [] emptyFake)).first.pc = .done none ∧
    (runSchedule fakeOps [true, false, true, false, true, false, true]
      (startPair defaultConfig none none [] [] emptyFake)).first.proc.em.IsMasterQ = [true] ∧
    (runSchedule fakeOps [true, false, true, false, true, false, true]
      (startPair defaultConfig none none [] [] emptyFake)).second.pc =
        .done (some (.err (.zk ErrNodeExists))) ∧
    (runSchedule fakeOps [true, false, true, false, true, false, true]
      (startPair defaultConfig none none [] [] emptyFake)).second.proc.em.IsMasterQ = [] := by
  decide

/-- C4, amended: two processes run `electMaster` with the same configuration (non-empty
`MasterPath`) against one fake service that connects, from an empty namespace. Under every
schedule of their steps: once each process has been given four steps both calls have
returned; and whenever both have returned, exactly one of them returned `nil` having sent
`true`, and the other either returned `nil` having sent `false` or returned the
node-exists error of its root create having sent nothing. -/
theorem race_elects_exactly_one (cfg : ZookeeperConfig) (c1 c2 : Option Nat)
    (q1 q2 : List Bool) (zk : FakeZK) (hn : zk.nodes = []) (hc : zk.connects)
    (hm : cfg.MasterPath ≠ []) (sched : List Bool) :
    (4 ≤ sched.count true → 4 ≤ sched.count false →
      ∃ e1 e2,
        (runSchedule fakeOps sched (startPair cfg c1 c2 q1 q2 zk)).first.pc = .done e1 ∧
        (runSchedule fakeOps sched (startPair cfg c1 c2 q1 q2 zk)).second.pc = .done e2) ∧
    (∀ e1 e2,
      (runSchedule fakeOps sched (startPair cfg c1 c2 q1 q2 zk)).first.pc = .done e1 →
      (runSchedule fakeOps sched (startPair cfg c1 c2 q1 q2 zk)).second.pc = .done e2 →
      ((runSchedule fakeOps sched (startPair cfg c1 c2 q1 q2 zk)).first.isLeader q1 ∧
        ((runSchedule fakeOps sched (startPair cfg c1 c2 q1 q2 zk)).second.isStandby q2 ∨
          (runSchedule fakeOps sched (startPair cfg c1 c2 q1 q2 zk)).second.lostRoot q2)) ∨
      ((runSchedule fakeOps sched (startPair cfg c1 c2 q1 q2 zk)).second.isLeader q2 ∧
        ((runSchedule fakeOps sched (startPair cfg c1 c2 q1 q2 zk)).first.isStandby q1 ∨
          (runSchedule fakeOps sched (startPair cfg c1 c2 q1 q2 zk)).first.lostRoot q1))) := by
  have hstart : viewOf cfg q1 q2 (startPair cfg c1 c2 q1 q2 zk) = ⟨.init, .init, false, false⟩ := by
    simp [viewOf, startPair, stageOf, FakeZK.has, FakeZK.lookup, hn]
  obtain ⟨hok, hr1, hr2⟩ := runSchedule_view cfg q1 q2 hm sched (startPair cfg c1 c2 q1 q2 zk)
    rfl rfl hc (by rw [hstart]; rfl)
  generalize runSchedule fakeOps sched (startPair cfg c1 c2 q1 q2 zk) = s at hok hr1 hr2 ⊢
  obtain ⟨ho1, ho2⟩ := View.not_other_of_ok hok
  have hs1 : stageOf q1 (startPair cfg c1 c2 q1 q2 zk).first = .init := congrArg View.first hstart
  have hs2 : stageOf q2 (startPair cfg c1 c2 q1 q2 zk).second = .init :=
    congrArg View.second hstart
  rw [hs1] at hr1
  rw [hs2] at hr2
  constructor
  · intro hc1 hc2
    have f1 := Stage.finished_of_rank (hr1 (by simp [Stage.rank]; exact hc1)) ho1
    have f2 := Stage.finished_of_rank (hr2 (by simp [Stage.rank]; exact hc2)) ho2
    obtain ⟨e1, he1⟩ := (stageOf_finished_iff ho1).mp f1
    obtain ⟨e2, he2⟩ := (stageOf_finished_iff ho2).mp f2
    exact ⟨e1, e2, he1, he2⟩
  · intro e1 e2 he1 he2
    have f1 : (viewOf cfg q1 q2 s).first.finished = true :=
      (stageOf_finished_iff ho1).mpr ⟨e1, he1⟩
    have f2 : (viewOf cfg q1 q2 s).second.finished = true :=
      (stageOf_finished_iff ho2).mpr ⟨e2, he2⟩
    have hd := View.decided_of_ok _ hok f1 f2
    simp only [View.decided, viewOf, Bool.or_eq_true, Bool.and_eq_true, beq_iff_eq] at hd
    rcases hd with ⟨ha, hb | hb⟩ | ⟨ha, hb | hb⟩
    · exact Or.inl ⟨stageOf_leader ha, Or.inl (stageOf_standby hb)⟩
    · exact Or.inl ⟨stageOf_leader ha, Or.inr (stageOf_rootLost hb)⟩
    · exact Or.inr ⟨stageOf_leader ha, Or.inl (stageOf_standby hb)⟩
    · exact Or.inr ⟨stageOf_leader ha, Or.inr (stageOf_rootLost hb)⟩

/-- Witness for the amended C4: the default configuration, the first process running to
the end before the second starts. -/
theorem race_elects_exactly_one_witness :
    emptyFake.nodes = [] ∧ emptyFake.connects ∧ defaultConfig.MasterPath ≠ [] ∧
    ∃ e1 e2,
      (runSchedule fakeOps [true, true, true, true, false, false, false, false]
        (startPair defaultConfig none none [] [] emptyFake)).first.pc = .done e1 ∧
      (runSchedule fakeOps [true, true, true, true, false, false, false, false]
        (startPair defaultConfig none none [] [] emptyFake)).second.pc = .done e2 :=
  ⟨rfl, by decide, by decide,
   (race_elects_exactly_one defaultConfig none none [] [] emptyFake rfl (by decide) (by decide)
     [true, true, true, true, false, false, false, false]).1 (by decide) (by decide)⟩

end ElectingMaster
